import Mathlib

/-!
Verification development for the `nethelper` module: a shallow embedding of
the frame codec, the client node (`NetNode`) and the relay server
(`NetServer`) from `nethelper.py`, together with theorems settling the
frozen specification claims.

Conventions of the embedding:
* Python `bytes` values are `List Nat` (each element below 256 for genuine
  byte strings); slicing maps to `List.take`/`List.drop`.
* `json.dumps`/`json.loads` from the standard library are modelled by an
  executable lossless serializer `pyDumps`/`pyLoads` over an inductive type
  `JsonVal` of JSON-equivalent values (numbers restricted to integers).
  The atoms `null`/`true`/`false` serialize to their JSON spellings.
* Python `dict` is modelled as an insertion-ordered association list with
  in-place update (`dictSet`) and lookup (`dictFind`).
* Fallible operations (`int.to_bytes` overflow, version-check exceptions,
  JSON parse errors) return `Option`/`Except`.
-/

set_option autoImplicit false

namespace Nethelper

/-! ## Bytes -/

/-- Python `bytes` as a list of byte values. -/
abbrev Bytes := List Nat

/-- `n.to_bytes(4, 'big')`: the four big-endian bytes of `n`;
Python raises `OverflowError` when `n` does not fit, modelled by `none`. -/
def toBytes4 (n : Nat) : Option Bytes :=
  if n < 2 ^ 32 then
    some [n / 2 ^ 24 % 256, n / 2 ^ 16 % 256, n / 2 ^ 8 % 256, n % 256]
  else none

/-- `n.to_bytes(1, 'big')`: the single byte of `n`, `none` on overflow. -/
def toByte1 (n : Nat) : Option Bytes :=
  if n < 256 then some [n] else none

/-- `int.from_bytes(b, 'big')`. -/
def fromBytesBE (b : Bytes) : Nat :=
  b.foldl (fun acc x => acc * 256 + x) 0

/-! ## Python dictionaries as insertion-ordered association lists -/

/-- Lookup in a Python dict (association list). -/
def dictFind {α β : Type} [DecidableEq α] : List (α × β) → α → Option β
  | [], _ => none
  | (k', v') :: tl, k => if k = k' then some v' else dictFind tl k

/-- `d[k] = v` on a Python dict: replace in place if the key exists,
append otherwise. -/
def dictSet {α β : Type} [DecidableEq α] : List (α × β) → α → β → List (α × β)
  | [], k, v => [(k, v)]
  | (k', v') :: tl, k, v =>
    if k = k' then (k, v) :: tl else (k', v') :: dictSet tl k v

@[simp] theorem dictFind_nil {α β : Type} [DecidableEq α] (k : α) :
    dictFind ([] : List (α × β)) k = none := rfl

theorem dictFind_dictSet_self {α β : Type} [DecidableEq α]
    (d : List (α × β)) (k : α) (v : β) :
    dictFind (dictSet d k v) k = some v := by
  induction d with
  | nil => simp [dictSet, dictFind]
  | cons hd tl ih =>
    obtain ⟨k', v'⟩ := hd
    by_cases h : k = k' <;> simp [dictSet, dictFind, h, ih]

theorem dictFind_dictSet_ne {α β : Type} [DecidableEq α]
    (d : List (α × β)) (k k' : α) (v : β) (h : k' ≠ k) :
    dictFind (dictSet d k v) k' = dictFind d k' := by
  induction d with
  | nil => simp [dictSet, dictFind, h]
  | cons hd tl ih =>
    obtain ⟨k₀, v₀⟩ := hd
    by_cases h0 : k = k₀
    · subst h0
      simp [dictSet, dictFind, h]
    · by_cases h1 : k' = k₀ <;> simp [dictSet, dictFind, h0, h1, ih]

/-! ## JSON values

Model of the JSON-equivalent data passed to `json.dumps` / returned by
`json.loads` (numbers restricted to integers; floats are out of scope). -/

mutual
inductive JsonVal : Type where
  | null : JsonVal
  | bool (b : Bool) : JsonVal
  | num (n : Int) : JsonVal
  | str (s : String) : JsonVal
  | arr (elems : JsonArr) : JsonVal
  | obj (fields : JsonObj) : JsonVal
deriving DecidableEq

inductive JsonArr : Type where
  | nil : JsonArr
  | cons (hd : JsonVal) (tl : JsonArr) : JsonArr
deriving DecidableEq

inductive JsonObj : Type where
  | nil : JsonObj
  | cons (key : String) (val : JsonVal) (tl : JsonObj) : JsonObj
deriving DecidableEq
end

/-! ### Serialization (model of `json.dumps`)

A lossless, executable, self-delimiting byte encoding.  The JSON atoms
keep their textual spellings (`null`, `true`, `false` in ASCII), so the
atom payload sizes agree with `json.dumps`; composite values use tagged
length-free encodings (unary naturals, terminated lists). -/

/-- Unary encoding of a natural: `n` ones then a zero. -/
def encNat : Nat → Bytes
  | 0 => [0]
  | n + 1 => 1 :: encNat n

/-- Inverse of `encNat`, returning the remaining input. -/
def decNat : Bytes → Option (Nat × Bytes)
  | [] => none
  | 0 :: rest => some (0, rest)
  | 1 :: rest => (decNat rest).map (fun p => (p.1 + 1, p.2))
  | _ => none

theorem decNat_encNat (n : Nat) (rest : Bytes) :
    decNat (encNat n ++ rest) = some (n, rest) := by
  induction n with
  | zero => simp [encNat, decNat]
  | succ m ih => simp [encNat, decNat, ih]

/-- Encoding of a character list (used for strings and object keys). -/
def encChars : List Char → Bytes
  | [] => [0]
  | c :: cs => 1 :: (encNat c.toNat ++ encChars cs)

/-- Fuelled inverse of `encChars`. -/
def decChars : Nat → Bytes → Option (List Char × Bytes)
  | 0, _ => none
  | _ + 1, [] => none
  | _ + 1, 0 :: rest => some ([], rest)
  | fuel + 1, 1 :: rest =>
    match decNat rest with
    | none => none
    | some (n, r1) =>
      match decChars fuel r1 with
      | none => none
      | some (cs, r2) => some (Char.ofNat n :: cs, r2)
  | _ + 1, _ => none

theorem encChars_length_pos (cs : List Char) : 0 < (encChars cs).length := by
  cases cs <;> simp [encChars]

theorem decChars_encChars (cs : List Char) :
    ∀ (fuel : Nat) (rest : Bytes), (encChars cs).length ≤ fuel →
      decChars fuel (encChars cs ++ rest) = some (cs, rest) := by
  induction cs with
  | nil =>
    intro fuel rest h
    match fuel, h with
    | f + 1, _ => simp [encChars, decChars]
  | cons c cs ih =>
    intro fuel rest h
    simp only [encChars, List.length_cons, List.length_append] at h
    match fuel, h with
    | f + 1, h =>
      have hlen : (encChars cs).length ≤ f := by omega
      simp [encChars, decChars, List.append_assoc, decNat_encNat, ih f rest hlen,
        Char.ofNat_toNat]

/-- Encoding of an integer: sign byte then unary absolute value. -/
def encInt (i : Int) : Bytes :=
  (if i < 0 then 1 else 0) :: encNat i.natAbs

/-- Inverse of `encInt`. -/
def decInt : Bytes → Option (Int × Bytes)
  | 0 :: rest => (decNat rest).map (fun p => ((p.1 : Int), p.2))
  | 1 :: rest => (decNat rest).map (fun p => (-(p.1 : Int), p.2))
  | _ => none

theorem decInt_encInt (i : Int) (rest : Bytes) :
    decInt (encInt i ++ rest) = some (i, rest) := by
  by_cases h : i < 0
  · simp only [encInt, if_pos h]
    simp only [List.cons_append, decInt, decNat_encNat, Option.map_some']
    have : -((i.natAbs : Nat) : Int) = i := by omega
    rw [this]
  · simp only [encInt, if_neg h]
    simp only [List.cons_append, decInt, decNat_encNat, Option.map_some']
    have : ((i.natAbs : Nat) : Int) = i := by omega
    rw [this]

mutual
/-- Serialization of a JSON value (model of `json.dumps` at byte level). -/
def encVal : JsonVal → Bytes
  | .null => [110, 117, 108, 108]
  | .bool true => [116, 114, 117, 101]
  | .bool false => [102, 97, 108, 115, 101]
  | .num n => 2 :: encInt n
  | .str s => 3 :: encChars s.data
  | .arr a => 4 :: encArr a
  | .obj o => 5 :: encObj o

/-- Serialization of a JSON array. -/
def encArr : JsonArr → Bytes
  | .nil => [0]
  | .cons v tl => 1 :: (encVal v ++ encArr tl)

/-- Serialization of a JSON object. -/
def encObj : JsonObj → Bytes
  | .nil => [0]
  | .cons k v tl => 1 :: (encChars k.data ++ (encVal v ++ encObj tl))
end

mutual
/-- Fuelled parser for serialized JSON values (model of `json.loads`). -/
def decVal : Nat → Bytes → Option (JsonVal × Bytes)
  | 0, _ => none
  | fuel + 1, input =>
    match input with
    | 110 :: 117 :: 108 :: 108 :: rest => some (.null, rest)
    | 116 :: 114 :: 117 :: 101 :: rest => some (.bool true, rest)
    | 102 :: 97 :: 108 :: 115 :: 101 :: rest => some (.bool false, rest)
    | 2 :: rest => (decInt rest).map (fun p => (.num p.1, p.2))
    | 3 :: rest =>
      (decChars fuel rest).map (fun p => (.str (String.mk p.1), p.2))
    | 4 :: rest => (decArr fuel rest).map (fun p => (.arr p.1, p.2))
    | 5 :: rest => (decObj fuel rest).map (fun p => (.obj p.1, p.2))
    | _ => none

/-- Fuelled parser for serialized JSON arrays. -/
def decArr : Nat → Bytes → Option (JsonArr × Bytes)
  | 0, _ => none
  | fuel + 1, input =>
    match input with
    | 0 :: rest => some (.nil, rest)
    | 1 :: rest =>
      match decVal fuel rest with
      | none => none
      | some (v, r1) =>
        match decArr fuel r1 with
        | none => none
        | some (tl, r2) => some (.cons v tl, r2)
    | _ => none

/-- Fuelled parser for serialized JSON objects. -/
def decObj : Nat → Bytes → Option (JsonObj × Bytes)
  | 0, _ => none
  | fuel + 1, input =>
    match input with
    | 0 :: rest => some (.nil, rest)
    | 1 :: rest =>
      match decChars fuel rest with
      | none => none
      | some (k, r1) =>
        match decVal fuel r1 with
        | none => none
        | some (v, r2) =>
          match decObj fuel r2 with
          | none => none
          | some (tl, r3) => some (.cons (String.mk k) v tl, r3)
    | _ => none
end

theorem encVal_length_pos (v : JsonVal) : 0 < (encVal v).length := by
  cases v with
  | bool b => cases b <;> simp [encVal]
  | _ => simp [encVal]

theorem encArr_length_pos (a : JsonArr) : 0 < (encArr a).length := by
  cases a <;> simp [encArr]

theorem encObj_length_pos (o : JsonObj) : 0 < (encObj o).length := by
  cases o <;> simp [encObj]

theorem decVal_encVal_aux : ∀ fuel : Nat,
    (∀ (v : JsonVal) (rest : Bytes), (encVal v).length ≤ fuel →
      decVal fuel (encVal v ++ rest) = some (v, rest)) ∧
    (∀ (a : JsonArr) (rest : Bytes), (encArr a).length ≤ fuel →
      decArr fuel (encArr a ++ rest) = some (a, rest)) ∧
    (∀ (o : JsonObj) (rest : Bytes), (encObj o).length ≤ fuel →
      decObj fuel (encObj o ++ rest) = some (o, rest)) := by
  intro fuel
  induction fuel with
  | zero =>
    refine ⟨fun v rest h => ?_, fun a rest h => ?_, fun o rest h => ?_⟩
    · have := encVal_length_pos v; omega
    · have := encArr_length_pos a; omega
    · have := encObj_length_pos o; omega
  | succ f ih =>
    obtain ⟨ihv, iha, iho⟩ := ih
    refine ⟨fun v rest h => ?_, fun a rest h => ?_, fun o rest h => ?_⟩
    · cases v with
      | null => simp [encVal, decVal]
      | bool b => cases b <;> simp [encVal, decVal]
      | num n => simp [encVal, decVal, decInt_encInt]
      | str s =>
        simp only [encVal, List.length_cons] at h
        have hc : (encChars s.data).length ≤ f := by omega
        cases s with
        | mk data =>
          simp [encVal, decVal, decChars_encChars _ f rest hc]
      | arr a =>
        simp only [encVal, List.length_cons] at h
        simp [encVal, decVal, iha a rest (by omega)]
      | obj o =>
        simp only [encVal, List.length_cons] at h
        simp [encVal, decVal, iho o rest (by omega)]
    · cases a with
      | nil => simp [encArr, decArr]
      | cons v tl =>
        simp only [encArr, List.length_cons, List.length_append] at h
        have hv : (encVal v).length ≤ f := by
          have := encArr_length_pos tl; omega
        have ht : (encArr tl).length ≤ f := by
          have := encVal_length_pos v; omega
        simp [encArr, decArr, List.append_assoc, ihv v _ hv, iha tl rest ht]
    · cases o with
      | nil => simp [encObj, decObj]
      | cons k v tl =>
        simp only [encObj, List.length_cons, List.length_append] at h
        have hk : (encChars k.data).length ≤ f := by
          have := encVal_length_pos v; have := encObj_length_pos tl; omega
        have hv : (encVal v).length ≤ f := by
          have := encChars_length_pos k.data; have := encObj_length_pos tl; omega
        have ht : (encObj tl).length ≤ f := by
          have := encChars_length_pos k.data; have := encVal_length_pos v; omega
        cases k with
        | mk kdata =>
          simp [encObj, decObj, List.append_assoc,
            decChars_encChars _ f _ hk, ihv v _ hv, iho tl rest ht]

/-- Model of `json.dumps(data)` followed by the `utf-8` encoding in
`Net._dumps`. -/
def pyDumps (v : JsonVal) : Bytes := encVal v

/-- Model of `Net._loads`: `json.loads` of a byte string; `none` models the
`JSONDecodeError` raised on input that is not the serialization of a value. -/
def pyLoads (b : Bytes) : Option JsonVal :=
  match decVal b.length b with
  | some (v, []) => some v
  | _ => none

theorem pyLoads_pyDumps (v : JsonVal) : pyLoads (pyDumps v) = some v := by
  have h := (decVal_encVal_aux (encVal v).length).1 v [] le_rfl
  rw [List.append_nil] at h
  simp [pyLoads, pyDumps, h]

/-! ## Frame codec (class `Net`) -/

def HEADER_SIZE : Nat := 11

/-- `VERSION = b'020'`. -/
def VERSION : Bytes := [48, 50, 48]

def FRAME_TYPE_AUTH : Bytes := [1]
def FRAME_TYPE_DATA : Bytes := [2]
def FRAME_TYPE_HEART : Bytes := [3]
def FRAME_TYPE_PEERS : Bytes := [4]
def FRAME_TYPE_REQ : Bytes := [5]
def FRAME_TYPE_SYSM : Bytes := [6]

def SYSM_TYPE_NAME : Int := 0
def REQ_TYPE_DISCONNECT : Int := 0
def REQ_TYPE_PEERS : Int := 1

def SERVER_ADDR : Bytes := [0]
def UNKNOWN_ADDR : Bytes := [255]
def ALL_CLIENTS : Bytes := [255]

def IN_BUFFER_LIMIT : Nat := 102400

/-- The dictionary handed to `Net._encode_frame`.  `data = none` models a
dictionary without the `'data'` key; `some v` a present key (Python `None`
is `some .null`).  `meta = none` models an absent or `None` meta. -/
structure Frame where
  dest : Bytes
  type : Bytes
  data : Option JsonVal
  meta : Option Bytes

/-- `Net._construct_frame`: length prefix · version · dest · own address ·
type · meta · payload.  `none` models the `OverflowError` of
`frame_length.to_bytes(4, 'big')`. -/
def constructFrame (myAddr : Bytes) (f : Frame) (bData : Bytes) : Option Bytes :=
  let metaB := f.meta.getD [0]
  (toBytes4 (HEADER_SIZE + bData.length)).map fun lenB =>
    lenB ++ VERSION ++ f.dest ++ myAddr ++ f.type ++ metaB ++ bData

/-- `Net._encode_frame`: serialize the `'data'` entry when the key is
present (note: a present key holding `None` serializes to `b'null'`),
empty payload only when the key is absent. -/
def encodeFrame (myAddr : Bytes) (f : Frame) : Option Bytes :=
  let bData := match f.data with
    | some v => pyDumps v
    | none => []
  constructFrame myAddr f bData

/-- Result of `Net._decode_frame`. -/
structure DecodedFrame where
  version : Bytes
  dest : Bytes
  sender : Bytes
  type : Bytes
  meta : Bytes
  data : Bytes
deriving DecidableEq

instance {ε α : Type} [DecidableEq ε] [DecidableEq α] :
    DecidableEq (Except ε α) := fun a b =>
  match a, b with
  | .error e1, .error e2 =>
    if h : e1 = e2 then .isTrue (by rw [h]) else .isFalse (by simp [h])
  | .ok v1, .ok v2 =>
    if h : v1 = v2 then .isTrue (by rw [h]) else .isFalse (by simp [h])
  | .error _, .ok _ => .isFalse (by simp)
  | .ok _, .error _ => .isFalse (by simp)

/-- `Net._decode_frame`: header slicing plus the version check, whose
failure raises (`.error`). -/
def decodeFrame (frame : Bytes) : Except String DecodedFrame :=
  let version := (frame.drop 4).take 3
  if version ≠ VERSION then
    .error "Error: Incompatible Nethelpher version"
  else
    .ok { version := version
          dest := (frame.drop 7).take 1
          sender := (frame.drop 8).take 1
          type := (frame.drop 9).take 1
          meta := (frame.drop 10).take 1
          data := frame.drop 11 }

/-- `Net._get_frame`: extract the first complete frame from a buffer,
returning the remainder. -/
def getFrame (data : Bytes) : Option Bytes × Bytes :=
  if data.length < HEADER_SIZE then (none, data)
  else
    let frameLen := fromBytesBE (data.take 4)
    if data.length < frameLen then (none, data)
    else (some (data.take frameLen), data.drop frameLen)

/-- C1: decoding an encoded frame restores every header field (with the
sender being the encoder's own address) and the payload value. -/
theorem decode_encode_roundtrip (myAddr destB typeB metaB : Nat) (v : JsonVal)
    (hm : myAddr < 256) (hd : destB < 256) (ht : typeB < 256)
    (hmeta : metaB < 256)
    (hlen : HEADER_SIZE + (pyDumps v).length < 2 ^ 32) :
    ∃ (bytes : Bytes) (df : DecodedFrame),
      encodeFrame [myAddr] ⟨[destB], [typeB], some v, some [metaB]⟩
        = some bytes ∧
      decodeFrame bytes = .ok df ∧
      df.dest = [destB] ∧ df.sender = [myAddr] ∧ df.type = [typeB] ∧
      df.meta = [metaB] ∧ pyLoads df.data = some v := by
  have h4 : toBytes4 (HEADER_SIZE + (pyDumps v).length) =
      some [(HEADER_SIZE + (pyDumps v).length) / 2 ^ 24 % 256,
            (HEADER_SIZE + (pyDumps v).length) / 2 ^ 16 % 256,
            (HEADER_SIZE + (pyDumps v).length) / 2 ^ 8 % 256,
            (HEADER_SIZE + (pyDumps v).length) % 256] := by
    simp only [toBytes4, if_pos]
    rw [if_pos (by omega)]
  refine ⟨(HEADER_SIZE + (pyDumps v).length) / 2 ^ 24 % 256 ::
      (HEADER_SIZE + (pyDumps v).length) / 2 ^ 16 % 256 ::
      (HEADER_SIZE + (pyDumps v).length) / 2 ^ 8 % 256 ::
      (HEADER_SIZE + (pyDumps v).length) % 256 ::
      48 :: 50 :: 48 :: destB :: myAddr :: typeB :: metaB :: pyDumps v,
    ⟨VERSION, [destB], [myAddr], [typeB], [metaB], pyDumps v⟩,
    ?_, ?_, rfl, rfl, rfl, rfl, pyLoads_pyDumps v⟩
  · simp [encodeFrame, constructFrame, h4, VERSION]
  · rfl

/-- C1 witness at a concrete frame. -/
theorem decode_encode_roundtrip_witness :
    (7 < 256 ∧ 1 < 256 ∧ 2 < 256 ∧ 0 < 256 ∧
      HEADER_SIZE + (pyDumps (.num 5)).length < 2 ^ 32) ∧
    ∃ (bytes : Bytes) (df : DecodedFrame),
      encodeFrame [7] ⟨[1], [2], some (.num 5), some [0]⟩ = some bytes ∧
      decodeFrame bytes = .ok df ∧
      df.dest = [1] ∧ df.sender = [7] ∧ df.type = [2] ∧
      df.meta = [0] ∧ pyLoads df.data = some (.num 5) :=
  ⟨⟨by decide, by decide, by decide, by decide, by decide⟩,
    decode_encode_roundtrip 7 1 2 0 (.num 5) (by decide) (by decide)
      (by decide) (by decide) (by decide)⟩

/-! ## Client node (`NetNode`) -/

/-- One `{title, content, queue}` message envelope of a DATA payload
(fields per the wire schema; on the wire it is a JSON object). -/
structure Envelope where
  title : String
  content : JsonVal
  queue : Bool
deriving DecidableEq

/-- The node's inbound message store `sender-name → title → queue`.
The sender name is `Option String` because
`NetNode._get_name_from_addr` can return `None`, which Python uses as a
dictionary key. -/
abbrev InData := List (Option String × List (String × List JsonVal))

/-- State of a `NetNode` (socket handle replaced by an open flag; wall
clock values are `Int` parameters). -/
structure NodeState where
  inBuf : Bytes
  outBuf : Bytes
  heartBeatTime : Int
  in_data : InData
  out_data : List (Bytes × List Envelope)
  peers : List (String × Bytes)
  my_addr : Bytes
  name : String
  socketOpen : Bool
deriving DecidableEq

/-- `NetNode.__init__` (plus a yet-unset name and an open socket as
`connect` leaves them). -/
def initNode : NodeState :=
  { inBuf := [], outBuf := [], heartBeatTime := 0, in_data := [],
    out_data := [], peers := [], my_addr := UNKNOWN_ADDR, name := "",
    socketOpen := true }

/-- `NetNode._get_peer_addr`: peer-map lookup first, then the `'ALL'`
broadcast fallback. -/
def getPeerAddr (s : NodeState) (name : String) : Option Bytes :=
  match dictFind s.peers name with
  | some a => some a
  | none => if name = "ALL" then some ALL_CLIENTS else none

/-- `NetNode.send_msg`. -/
def sendMsg (s : NodeState) (name title : String) (content : JsonVal)
    (queue : Bool) : Bool × NodeState :=
  match getPeerAddr s name with
  | none => (false, s)
  | some dest =>
    let od := match dictFind s.out_data dest with
      | none => dictSet s.out_data dest []
      | some _ => s.out_data
    let lst := (dictFind od dest).getD []
    (true, { s with out_data := dictSet od dest (lst ++ [⟨title, content, queue⟩]) })

/-- `NetNode._get_name_from_addr`: first peer whose address matches. -/
def getNameFromAddr : List (String × Bytes) → Bytes → Option String
  | [], _ => none
  | (n, a) :: tl, addr => if a = addr then some n else getNameFromAddr tl addr

/-- Body of the `NetNode._process_dataframe` loop for one envelope:
create missing store entries, then append (queue) or overwrite. -/
def processMessage (senderName : Option String) (d : InData) (m : Envelope) :
    InData :=
  let d1 := match dictFind d senderName with
    | none => dictSet d senderName []
    | some _ => d
  let inner := (dictFind d1 senderName).getD []
  let inner1 := match dictFind inner m.title with
    | none => dictSet inner m.title []
    | some _ => inner
  let lst := (dictFind inner1 m.title).getD []
  let inner2 := dictSet inner1 m.title
    (if m.queue then lst ++ [m.content] else [m.content])
  dictSet d1 senderName inner2

/-- `NetNode._process_dataframe` applied to already-parsed envelopes. -/
def nodeProcessDataframe (senderName : Option String) (msgs : List Envelope)
    (d : InData) : InData :=
  msgs.foldl (processMessage senderName) d

/-- Lookup of the stored queue for a `(sender, title)` pair. -/
def innerFind (d : InData) (sn : Option String) (t : String) :
    Option (List JsonVal) :=
  (dictFind d sn).bind fun inner => dictFind inner t

/-- Python truthiness of a JSON value (for `if queue:`). -/
def jsonTruthy : JsonVal → Bool
  | .null => false
  | .bool b => b
  | .num n => decide (n ≠ 0)
  | .str s => !s.isEmpty
  | .arr .nil => false
  | .arr _ => true
  | .obj .nil => false
  | .obj _ => true

/-- Key lookup in a parsed JSON object (objects arriving from
`json.loads` have unique keys). -/
def jsonField : JsonObj → String → Option JsonVal
  | .nil, _ => none
  | .cons k v tl, key => if key = k then some v else jsonField tl key

/-- Extraction of one envelope from its JSON object, per the DATA schema
(`title` a string; a missing key models the `KeyError` the loop would
raise). -/
def envelopeOfJson : JsonVal → Except String Envelope
  | .obj o =>
    match jsonField o "title", jsonField o "content", jsonField o "queue" with
    | some (.str t), some c, some q => .ok ⟨t, c, jsonTruthy q⟩
    | some _, some _, some _ => .error "model: non-string title"
    | _, _, _ => .error "KeyError"
  | _ => .error "TypeError: message is not an object"

/-- Extraction of the envelope list of a DATA payload. -/
def envelopesOfJson : JsonVal → Except String (List Envelope)
  | .arr a => go a
  | _ => .error "TypeError: DATA payload is not a list"
where
  go : JsonArr → Except String (List Envelope)
  | .nil => .ok []
  | .cons v tl =>
    match envelopeOfJson v with
    | .error e => .error e
    | .ok env =>
      match go tl with
      | .error e => .error e
      | .ok envs => .ok (env :: envs)

/-- Parse the PEERS payload `[{name, addr}, ...]` into `(name, addr-byte)`
pairs; `addr.to_bytes(1, 'big')` raises on overflow (`.error`). -/
def peersOfJson : JsonVal → Except String (List (String × Bytes))
  | .arr a => go a
  | _ => .error "TypeError: PEERS payload is not a list"
where
  go : JsonArr → Except String (List (String × Bytes))
  | .nil => .ok []
  | .cons v tl =>
    match v with
    | .obj o =>
      match jsonField o "name", jsonField o "addr" with
      | some (.str n), some (.num a) =>
        if h : 0 ≤ a ∧ a < 256 then
          match go tl with
          | .error e => .error e
          | .ok rest => .ok ((n, [a.toNat]) :: rest)
        else .error "OverflowError"
      | some _, some _ => .error "model: malformed peer entry"
      | _, _ => .error "KeyError"
    | _ => .error "TypeError: peer entry is not an object"

/-- `NetNode._process_peersframe`: rebuild the peer map wholesale, then
re-derive the own address (`KeyError` if the own name is missing). -/
def nodeProcessPeersframe (s : NodeState) (j : JsonVal) :
    Except String NodeState :=
  match peersOfJson j with
  | .error e => .error e
  | .ok prs =>
    let newPeers := prs.foldl (fun acc p => dictSet acc p.1 p.2) []
    match dictFind newPeers s.name with
    | none => .error "KeyError: own name not in peers"
    | some a => .ok { s with peers := newPeers, my_addr := a }

/-- `NetNode._process_sysmframe` / `_process_sysm_name`. -/
def nodeProcessSysmframe (s : NodeState) (j : JsonVal) :
    Except String NodeState :=
  match j with
  | .obj o =>
    match jsonField o "type" with
    | none => .error "KeyError"
    | some t =>
      if t = .num SYSM_TYPE_NAME then
        match jsonField o "data" with
        | some (.str nm) => .ok { s with name := nm }
        | some _ => .error "model: non-string assigned name"
        | none => .error "KeyError"
      else .ok s
  | _ => .error "TypeError: SYSM payload is not an object"

/-- `NetNode._process_frame`: decode, then dispatch on the frame type. -/
def nodeProcessFrame (s : NodeState) (fb : Bytes) : Except String NodeState :=
  match decodeFrame fb with
  | .error e => .error e
  | .ok df =>
    if df.type = FRAME_TYPE_DATA then
      match pyLoads df.data with
      | none => .error "json.JSONDecodeError"
      | some j =>
        match envelopesOfJson j with
        | .error e => .error e
        | .ok msgs =>
          let d := nodeProcessDataframe (getNameFromAddr s.peers df.sender)
            msgs s.in_data
          .ok { s with in_data := d }
    else if df.type = FRAME_TYPE_PEERS then
      match pyLoads df.data with
      | none => .error "json.JSONDecodeError"
      | some j => nodeProcessPeersframe s j
    else if df.type = FRAME_TYPE_SYSM then
      match pyLoads df.data with
      | none => .error "json.JSONDecodeError"
      | some j => nodeProcessSysmframe s j
    else .ok s

/-- `NetNode._process_inbuf`: peel one frame off the buffer, process it,
recurse while bytes remain.  The fuel argument only realizes termination;
one byte of buffer feeds at most one recursion step in the source, so the
callers' fuel is never exhausted on reachable inputs. -/
def nodeProcessInbuf : Nat → NodeState → Except String NodeState
  | 0, _ => .error "model: recursion fuel exhausted"
  | fuel + 1, s =>
    match getFrame s.inBuf with
    | (none, rest) => .ok { s with inBuf := rest }
    | (some fb, rest) =>
      match nodeProcessFrame { s with inBuf := rest } fb with
      | .error e => .error e
      | .ok s2 =>
        if 0 < s2.inBuf.length then nodeProcessInbuf fuel s2 else .ok s2

/-- `NetNode.process_recv`: append everything the socket yielded to the
inbound buffer (the `recv` loop modelled as one chunk), then process it.
Note the source checks `inBuf` against no limit. -/
def nodeProcessRecv (s : NodeState) (received : Bytes) :
    Except String NodeState :=
  nodeProcessInbuf (s.inBuf.length + received.length + 1)
    { s with inBuf := s.inBuf ++ received }

/-- `NetNode._send_frame`: encode (the `'data'` key is always present in
the dictionary it builds, so `data=None` still serializes) and append to
the outbound buffer. -/
def sendFrame (s : NodeState) (dest frameType : Bytes) (data : JsonVal)
    (meta : Option Bytes) : Except String NodeState :=
  match encodeFrame s.my_addr ⟨dest, frameType, some data, meta⟩ with
  | none => .error "OverflowError"
  | some e => .ok { s with outBuf := s.outBuf ++ e }

/-- `NetNode._send_heartbeat_frame`: rate-limited to one HEART frame per
second; the `data` argument passed down is Python `None`. -/
def sendHeartbeatFrame (s : NodeState) (now : Int) : Except String NodeState :=
  if s.heartBeatTime + 1 < now then
    sendFrame { s with heartBeatTime := now } SERVER_ADDR FRAME_TYPE_HEART
      .null none
  else .ok s

/-- `NetNode._send_req` as defined in the source, with both of its
required parameters. -/
def sendReq (s : NodeState) (reqType : Int) (data : JsonVal) :
    Except String NodeState :=
  sendFrame s SERVER_ADDR FRAME_TYPE_REQ
    (.obj (.cons "type" (.num reqType) (.cons "data" data .nil))) none

/-- `NetNode.disconnect`: its body is
`self._send_req(self.REQ_TYPE_DISCONNECT)` followed by
`self.socket.close()`; `_send_req(self, req_type, data)` declares two
required positional parameters, so Python raises `TypeError` at the call
site, before a REQ frame is built and before the socket is closed.  The
raised call is modelled as an immediate error, leaving the state
untouched. -/
def nodeDisconnect (_s : NodeState) : Except String NodeState :=
  .error "TypeError: _send_req() missing 1 required positional argument: data"

/-! ### Inbound store lemmas (claim C2) -/

theorem innerFind_processMessage_self (sn : Option String) (d : InData)
    (t : String) (c : JsonVal) (q : Bool) :
    innerFind (processMessage sn d ⟨t, c, q⟩) sn t =
      some (if q then (innerFind d sn t).getD [] ++ [c] else [c]) := by
  cases h1 : dictFind d sn with
  | none =>
    simp only [processMessage, innerFind, h1]
    simp [dictFind_dictSet_self, dictFind, dictSet]
  | some x =>
    cases h2 : dictFind x t with
    | none =>
      simp only [processMessage, innerFind, h1]
      simp [h2, dictFind_dictSet_self]
    | some y =>
      simp only [processMessage, innerFind, h1]
      simp [h2, dictFind_dictSet_self]

theorem innerFind_processMessage_other (sn : Option String) (d : InData)
    (t : String) (m : Envelope) (h : m.title ≠ t) :
    innerFind (processMessage sn d m) sn t = innerFind d sn t := by
  cases h1 : dictFind d sn with
  | none =>
    simp only [processMessage, innerFind, h1]
    simp [dictFind_dictSet_self, dictFind_dictSet_ne _ _ _ _ (Ne.symm h),
      dictFind, dictSet, Ne.symm h, h1]
  | some x =>
    cases h2 : dictFind x m.title with
    | none =>
      simp only [processMessage, innerFind, h1]
      simp [h2, dictFind_dictSet_self,
        dictFind_dictSet_ne _ _ _ _ (Ne.symm h), h1]
    | some y =>
      simp only [processMessage, innerFind, h1]
      simp [h2, dictFind_dictSet_self,
        dictFind_dictSet_ne _ _ _ _ (Ne.symm h), h1]

theorem innerFind_processDataframe_other (sn : Option String) (t : String)
    (post : List Envelope) (h : ∀ m' ∈ post, m'.title ≠ t) :
    ∀ d : InData, innerFind (nodeProcessDataframe sn post d) sn t =
      innerFind d sn t := by
  induction post with
  | nil => intro d; rfl
  | cons m rest ih =>
    intro d
    have hm : m.title ≠ t := h m (List.mem_cons_self m rest)
    have hr : ∀ m' ∈ rest, m'.title ≠ t := fun m' hm' =>
      h m' (List.mem_cons_of_mem m hm')
    calc innerFind (nodeProcessDataframe sn (m :: rest) d) sn t
        = innerFind (nodeProcessDataframe sn rest (processMessage sn d m)) sn t := rfl
      _ = innerFind (processMessage sn d m) sn t := ih hr _
      _ = innerFind d sn t := innerFind_processMessage_other sn d t m hm

theorem innerFind_processDataframe_queue (sn : Option String) (t : String) :
    ∀ (msgs : List Envelope) (d : InData) (l : List JsonVal),
      innerFind d sn t = some l →
      (∀ m' ∈ msgs, m'.title = t ∧ m'.queue = true) →
      innerFind (nodeProcessDataframe sn msgs d) sn t =
        some (l ++ msgs.map (·.content)) := by
  intro msgs
  induction msgs with
  | nil => intro d l hl _; simpa [nodeProcessDataframe] using hl
  | cons m rest ih =>
    intro d l hl hall
    obtain ⟨hmt, hmq⟩ := hall m (List.mem_cons_self m rest)
    have hrest : ∀ m' ∈ rest, m'.title = t ∧ m'.queue = true := fun m' hm' =>
      hall m' (List.mem_cons_of_mem m hm')
    have hm : m = ⟨t, m.content, true⟩ := by
      cases m; simp_all
    have hstep : innerFind (processMessage sn d m) sn t =
        some (l ++ [m.content]) := by
      rw [hm]
      rw [innerFind_processMessage_self sn d t m.content true]
      simp [hl]
    have := ih (processMessage sn d m) (l ++ [m.content]) hstep hrest
    calc innerFind (nodeProcessDataframe sn (m :: rest) d) sn t
        = innerFind (nodeProcessDataframe sn rest (processMessage sn d m)) sn t := rfl
      _ = some ((l ++ [m.content]) ++ rest.map (·.content)) := this
      _ = some (l ++ (m :: rest).map (·.content)) := by simp

/-- C2: the inbound store invariant.  (1) If the last envelope for a
`(sender, title)` pair had `queue=false`, the store holds exactly the one
latest value for that pair.  (2) A nonempty run of `queue=true` envelopes
for one title appends its contents in FIFO arrival order.  (3) In
particular, receiving `content 1` then `content 2` under title `x`, both
with `queue=false` and no read in between, leaves exactly the value `2`. -/
theorem inbound_store_invariant :
    (∀ (d : InData) (sn : Option String) (t : String)
        (pre post : List Envelope) (m : Envelope),
      m.title = t → m.queue = false → (∀ m' ∈ post, m'.title ≠ t) →
      innerFind (nodeProcessDataframe sn (pre ++ m :: post) d) sn t =
        some [m.content]) ∧
    (∀ (d : InData) (sn : Option String) (t : String) (msgs : List Envelope),
      msgs ≠ [] → (∀ m' ∈ msgs, m'.title = t ∧ m'.queue = true) →
      innerFind (nodeProcessDataframe sn msgs d) sn t =
        some ((innerFind d sn t).getD [] ++ msgs.map (·.content))) ∧
    innerFind (nodeProcessDataframe (some "s")
        [⟨"x", .num 1, false⟩, ⟨"x", .num 2, false⟩] []) (some "s") "x" =
      some [.num 2] := by
  refine ⟨?_, ?_, by decide⟩
  · intro d sn t pre post m hmt hmq hpost
    have hm : m = ⟨t, m.content, false⟩ := by cases m; simp_all
    unfold nodeProcessDataframe
    rw [List.foldl_append]
    have hsplit : List.foldl (processMessage sn)
        (List.foldl (processMessage sn) d pre) (m :: post) =
        nodeProcessDataframe sn post
          (processMessage sn (List.foldl (processMessage sn) d pre) m) := rfl
    rw [hsplit, innerFind_processDataframe_other sn t post hpost, hm,
      innerFind_processMessage_self]
    simp
  · intro d sn t msgs hne hall
    match msgs, hne with
    | m :: rest, _ =>
      obtain ⟨hmt, hmq⟩ := hall m (List.mem_cons_self m rest)
      have hrest : ∀ m' ∈ rest, m'.title = t ∧ m'.queue = true := fun m' hm' =>
        hall m' (List.mem_cons_of_mem m hm')
      have hm : m = ⟨t, m.content, true⟩ := by cases m; simp_all
      have hstep : innerFind (processMessage sn d m) sn t =
          some ((innerFind d sn t).getD [] ++ [m.content]) := by
        rw [hm, innerFind_processMessage_self]
        simp
      have hrec := innerFind_processDataframe_queue sn t rest
        (processMessage sn d m) _ hstep hrest
      have hfold : nodeProcessDataframe sn (m :: rest) d =
          nodeProcessDataframe sn rest (processMessage sn d m) := rfl
      rw [hfold, hrec]
      simp

/-- C2 witness: the invariant applied at concrete envelope sequences. -/
theorem inbound_store_invariant_witness :
    ((⟨"x", .num 1, false⟩ : Envelope).title = "x" ∧
      (⟨"x", .num 1, false⟩ : Envelope).queue = false ∧
      (∀ m' ∈ ([] : List Envelope), m'.title ≠ "x") ∧
      ([⟨"y", .num 3, true⟩] : List Envelope) ≠ [] ∧
      (∀ m' ∈ ([⟨"y", .num 3, true⟩] : List Envelope),
        m'.title = "y" ∧ m'.queue = true)) ∧
    innerFind (nodeProcessDataframe (some "a")
        ([] ++ (⟨"x", .num 1, false⟩ : Envelope) :: []) []) (some "a") "x" =
      some [.num 1] ∧
    innerFind (nodeProcessDataframe (some "a")
        [⟨"y", .num 3, true⟩] []) (some "a") "y" =
      some ((innerFind [] (some "a") "y").getD [] ++
        ([⟨"y", .num 3, true⟩] : List Envelope).map (·.content)) :=
  ⟨⟨rfl, rfl, by simp, by simp, by simp⟩,
    inbound_store_invariant.1 [] (some "a") "x" [] [] ⟨"x", .num 1, false⟩
      rfl rfl (by simp),
    inbound_store_invariant.2.1 [] (some "a") "y" [⟨"y", .num 3, true⟩]
      (by simp) (by simp)⟩

/-- C5: evaluation of the heartbeat path.  `_send_frame` always places the
`'data'` key in the frame dictionary, so `_send_heartbeat_frame`'s
`data=None` serializes to `b'null'`: the emitted HEART frame carries a
4-byte payload and a length field of 15, not an empty payload with length
11 — contradicting the module's own format comment (`HEART: no data`). -/
theorem heart_frame_has_payload :
    ∃ s' : NodeState, sendHeartbeatFrame initNode 2 = .ok s' ∧
      s'.outBuf = [0, 0, 0, 15, 48, 50, 48, 0, 255, 3, 0,
        110, 117, 108, 108] ∧
      fromBytesBE (s'.outBuf.take 4) = 15 ∧
      s'.outBuf.drop HEADER_SIZE = pyDumps .null ∧
      pyDumps .null ≠ [] ∧
      s'.outBuf.length ≠ HEADER_SIZE :=
  ⟨_, rfl, by decide, by decide, by decide, by decide, by decide⟩

/-- C9: evaluation of `NetNode.disconnect`.  Every call raises `TypeError`
(the `_send_req` call site omits the required `data` argument), so the
disconnect request is never sent and the socket never closed. -/
theorem disconnect_always_raises (s : NodeState) :
    nodeDisconnect s =
      .error "TypeError: _send_req() missing 1 required positional argument: data" :=
  rfl

/-- C10: `send_msg` with a name that is neither `'ALL'` nor a current peer
returns `False` and leaves the node state (outbound pending data included)
entirely unchanged, raising nothing. -/
theorem sendMsg_unknown_name (s : NodeState) (name title : String)
    (content : JsonVal) (queue : Bool)
    (hall : name ≠ "ALL") (hpeer : dictFind s.peers name = none) :
    sendMsg s name title content queue = (false, s) := by
  simp [sendMsg, getPeerAddr, hpeer, hall]

/-- C10 witness at a concrete unknown recipient. -/
theorem sendMsg_unknown_name_witness :
    (("bob" : String) ≠ "ALL" ∧ dictFind initNode.peers "bob" = none) ∧
    sendMsg initNode "bob" "t" (.num 1) false = (false, initNode) :=
  ⟨⟨by decide, rfl⟩,
    sendMsg_unknown_name initNode "bob" "t" (.num 1) false (by decide) rfl⟩

/-! ## Relay server (`NetServer`)

Client records are Python dictionaries holding a unique socket object, so
`self.clients.remove(client)` and in-place mutation address records by
that identity; the model carries the socket as a numeric id (`sock`) and
mutates/removes by it.  Frames buffered behind a frame that disconnects
the same client keep being processed on the dead record in Python; the
model drops them (no record, no effect) — the difference is invisible to
the surviving clients' address/group state. -/

/-- A server-side client record (`NetServer._accept_connection`). -/
structure Client where
  ip : Nat
  name : String
  group : String
  addr : Bytes
  inb : Bytes
  outb : Bytes
  sock : Nat
  watchDog : Int
deriving DecidableEq

/-- Server state: the client list, the configured group whitelist, and a
counter yielding the next socket id (Python socket objects are pairwise
distinct; `accept` hands out a fresh one). -/
structure ServerState where
  clients : List Client
  groups : List String
  nextSock : Nat
deriving DecidableEq

/-- A freshly accepted, unauthenticated client record. -/
def freshClient (sock ip : Nat) (now : Int) : Client :=
  { ip := ip, name := "", group := "", addr := UNKNOWN_ADDR, inb := [],
    outb := [], sock := sock, watchDog := now }

/-- `NetServer._accept_connection`: register a record for the freshly
accepted (hence fresh) socket. -/
def acceptConnection (st : ServerState) (ip : Nat) (now : Int) :
    ServerState :=
  let cs := st.clients ++ [freshClient st.nextSock ip now]
  { st with clients := cs, nextSock := st.nextSock + 1 }

/-- Find the live record of a socket. -/
def findClientBySock (clients : List Client) (sock : Nat) : Option Client :=
  clients.find? fun c => c.sock == sock

/-- In-place mutation of the record owned by a socket. -/
def setClientBySock (clients : List Client) (sock : Nat) (f : Client → Client) :
    List Client :=
  clients.map fun c => if c.sock = sock then f c else c

/-- `self.clients.remove(client)`: drop the first matching record. -/
def removeFirstSock : List Client → Nat → List Client
  | [], _ => []
  | c :: tl, s => if c.sock = s then tl else c :: removeFirstSock tl s

/-- `NetServer.disconnect` (socket teardown not modelled). -/
def serverDisconnect (st : ServerState) (sock : Nat) : ServerState :=
  { st with clients := removeFirstSock st.clients sock }

/-- `NetServer._send_bytes` on the record owned by `sock`. -/
def sendBytesTo (clients : List Client) (sock : Nat) (data : Bytes) :
    List Client :=
  setClientBySock clients sock fun c => { c with outb := c.outb ++ data }

/-- `NetServer._get_client_by_addr`: first client of the group holding the
address. -/
def getClientByAddr (clients : List Client) (addr : Bytes) (group : String) :
    Option Client :=
  clients.find? fun c => c.addr == addr && c.group == group

/-- `NetServer._get_client_by_name`. -/
def getClientByName (clients : List Client) (name group : String) :
    List Client :=
  clients.filter fun c => c.group == group && c.name == name

/-- `NetServer._get_clients_by_group`. -/
def getClientsByGroup (clients : List Client) (group : String) : List Client :=
  clients.filter fun c => c.group == group

/-- Loop body of `NetServer._get_free_addr` over the remaining candidate
addresses. -/
def getFreeAddrAux (clients : List Client) (group : String) :
    List Nat → Option Bytes
  | [] => none
  | a :: as =>
    if (getClientByAddr clients [a] group).isNone then some [a]
    else getFreeAddrAux clients group as

/-- `NetServer._get_free_addr`: lowest address in `range(1, 255)` unused in
the group. -/
def getFreeAddr (clients : List Client) (group : String) : Option Bytes :=
  getFreeAddrAux clients group (List.range' 1 254)

/-- The built-in name pool (`NetServer._RANDOM_NAMES`); the process-wide
`random.shuffle` is modelled as the identity permutation. -/
def RANDOM_NAMES : List String :=
  ["Ant", "Bat", "Bear", "Beaver", "Bee", "Bird", "Bison", "Boar",
   "Buffalo", "Camel", "Cat", "Cheetah", "Chicken", "Cobra", "Cow", "Crab",
   "Crane", "Crow", "Deer", "Dingo", "Dog", "Dolphin", "Dove", "Duck",
   "Eagle", "Elephant", "Ferret", "Fish", "Fly", "Fox", "Frog", "Gecko",
   "Goat", "Goldfish", "Hamster", "Hawk", "Hippo", "Horse", "Hyena",
   "Kangaroo", "Kitten", "Lion", "Lizard", "Lobster", "Monkey", "Moose",
   "Mouse", "Octopus", "Otter", "Owl", "Ox", "Panda", "Parrot", "Peacock",
   "Pig", "Pigeon", "Puppy", "Python", "Raccoon", "Rat", "Raven",
   "Scorpion", "Seal", "Shark", "Sheep", "Snail", "Snake", "Spider",
   "Squirrel", "Tiger", "Turkey", "Whale", "Wolf", "Zebra"]

/-- Numeric-suffix fallback of `NetServer._get_random_name`. -/
def findSuffixName (used : List String) : List Nat → Option String
  | [] => none
  | a :: as =>
    match RANDOM_NAMES.find? (fun n => !used.contains (n ++ toString a)) with
    | some n => some (n ++ toString a)
    | none => findSuffixName used as

/-- `NetServer._get_random_name`. -/
def getRandomName (clients : List Client) (group : String) : Option String :=
  let used := (getClientsByGroup clients group).map (·.name)
  match RANDOM_NAMES.find? (fun n => !used.contains n) with
  | some n => some n
  | none => findSuffixName used (List.range' 1 254)

/-- Helper turning the group membership into the PEERS JSON payload. -/
def peersListJson : List Client → JsonArr
  | [] => .nil
  | c :: tl =>
    .cons (.obj (.cons "name" (.str c.name)
      (.cons "addr" (.num (fromBytesBE c.addr : Nat)) .nil)))
      (peersListJson tl)

/-- `NetServer._get_peers_list`. -/
def getPeersList (clients : List Client) (group : String) : JsonVal :=
  .arr (peersListJson (getClientsByGroup clients group))

/-- `NetServer._send_peers_frame`: one encoded PEERS frame appended to the
outbound buffer of every client of the group. -/
def sendPeersFrame (st : ServerState) (group : String) :
    Except String ServerState :=
  match encodeFrame SERVER_ADDR
      ⟨ALL_CLIENTS, FRAME_TYPE_PEERS, some (getPeersList st.clients group),
        none⟩ with
  | none => .error "OverflowError"
  | some e =>
    let cs := (getClientsByGroup st.clients group).foldl
      (fun acc c => sendBytesTo acc c.sock e) st.clients
    .ok { st with clients := cs }

/-- `NetServer._send_sysm_name_frame` (sent before the address is
assigned, so its `dest` is still the record's current address). -/
def sendSysmNameFrame (st : ServerState) (client : Client) (name : String) :
    Except String ServerState :=
  match encodeFrame SERVER_ADDR
      ⟨client.addr, FRAME_TYPE_SYSM, some (.obj (.cons "type"
        (.num SYSM_TYPE_NAME) (.cons "msg" .null
          (.cons "data" (.str name) .nil)))), none⟩ with
  | none => .error "OverflowError"
  | some e => .ok { st with clients := sendBytesTo st.clients client.sock e }

/-- Tail of `NetServer._process_authframe` after name resolution: allocate
the lowest free address (disconnect when none), record the identity, and
broadcast the updated peer list. -/
def authAssign (st : ServerState) (sock : Nat) (name group : String) :
    Except String ServerState :=
  match getFreeAddr st.clients group with
  | none => .ok (serverDisconnect st sock)
  | some a =>
    let cs := setClientBySock st.clients sock
      fun c => { c with name := name, group := group, addr := a }
    sendPeersFrame { st with clients := cs } group

/-- `NetServer._process_authframe` (payload fields read per the AUTH
schema; a non-string field is an unmodelled Python corner and maps to an
error). -/
def processAuthframe (st : ServerState) (sock : Nat) (df : DecodedFrame) :
    Except String ServerState :=
  match findClientBySock st.clients sock with
  | none => .ok st
  | some client =>
    match pyLoads df.data with
    | none => .error "json.JSONDecodeError"
    | some (.obj o) =>
      match jsonField o "name", jsonField o "group" with
      | some (.str name), some (.str group) =>
        if st.groups.contains group then
          if name = "" then
            match getRandomName st.clients group with
            | none => .ok (serverDisconnect st sock)
            | some rn =>
              match sendSysmNameFrame st client rn with
              | .error e => .error e
              | .ok st1 => authAssign st1 sock rn group
          else if getClientByName st.clients name group ≠ [] then
            .ok (serverDisconnect st sock)
          else authAssign st sock name group
        else .ok (serverDisconnect st sock)
      | _, _ => .error "model: malformed AUTH payload"
    | some _ => .error "model: AUTH payload is not an object"

/-- `NetServer._process_dataframe`: broadcast to the group snapshot minus
the declared sender, or unicast to the first holder of the destination
address in the sender's group. -/
def serverProcessDataframe (clients : List Client) (client : Client)
    (df : DecodedFrame) (frame : Bytes) : List Client :=
  if df.dest = ALL_CLIENTS then
    (getClientsByGroup clients client.group).foldl
      (fun acc dc =>
        if dc.addr ≠ df.sender then sendBytesTo acc dc.sock frame else acc)
      clients
  else
    match getClientByAddr clients df.dest client.group with
    | some dc => sendBytesTo clients dc.sock frame
    | none => clients

/-- `NetServer._process_frame`: AUTH is dispatched before any check; other
types require an authenticated client whose declared sender equals its
allocated address (a mismatch only logs), then refresh the watchdog and
relay DATA.  (REQ/HEART/PEERS/SYSM fall through with no handler beyond
the watchdog refresh; `_process_reqframe` is never invoked by the
source.) -/
def serverProcessFrame (st : ServerState) (sock : Nat) (fb : Bytes)
    (now : Int) : Except String ServerState :=
  match decodeFrame fb with
  | .error e => .error e
  | .ok df =>
    if df.type = FRAME_TYPE_AUTH then processAuthframe st sock df
    else
      match findClientBySock st.clients sock with
      | none => .ok st
      | some c =>
        if c.group = "" then .ok st
        else if c.addr ≠ df.sender then .ok st
        else
          let c' := { c with watchDog := now }
          let cs := setClientBySock st.clients sock
            fun cc => { cc with watchDog := now }
          if df.type = FRAME_TYPE_DATA then
            .ok { st with clients := serverProcessDataframe cs c' df fb }
          else .ok { st with clients := cs }

/-- `NetServer._process_buf`: repeatedly peel and process complete frames
(fuel realizes termination, as in `nodeProcessInbuf`). -/
def processBuf : Nat → ServerState → Nat → Int → Except String ServerState
  | 0, _, _, _ => .error "model: recursion fuel exhausted"
  | fuel + 1, st, sock, now =>
    match findClientBySock st.clients sock with
    | none => .ok st
    | some c =>
      match getFrame c.inb with
      | (none, rest) =>
        let cs := setClientBySock st.clients sock
          fun cc => { cc with inb := rest }
        .ok { st with clients := cs }
      | (some fb, rest) =>
        let cs := setClientBySock st.clients sock
          fun cc => { cc with inb := rest }
        match serverProcessFrame { st with clients := cs } sock fb now with
        | .error e => .error e
        | .ok st2 => processBuf fuel st2 sock now

/-- `NetServer._service_read` for one readable event: append the received
chunk (empty chunk = orderly shutdown → disconnect), disconnect when the
inbound buffer exceeds `IN_BUFFER_LIMIT`, otherwise process the buffer. -/
def serviceRead (st : ServerState) (sock : Nat) (recvData : Bytes)
    (now : Int) : Except String ServerState :=
  match findClientBySock st.clients sock with
  | none => .ok st
  | some c =>
    if recvData = [] then .ok (serverDisconnect st sock)
    else
      let cs := setClientBySock st.clients sock
        fun cc => { cc with inb := cc.inb ++ recvData }
      if IN_BUFFER_LIMIT < c.inb.length + recvData.length then
        .ok (serverDisconnect { st with clients := cs } sock)
      else
        processBuf (c.inb.length + recvData.length + 1)
          { st with clients := cs } sock now

theorem removeFirstSock_sublist (l : List Client) (s : Nat) :
    (removeFirstSock l s).Sublist l := by
  induction l with
  | nil => simp [removeFirstSock]
  | cons c tl ih =>
    by_cases h : c.sock = s
    · simp [removeFirstSock, h]
    · simpa [removeFirstSock, h] using ih.cons₂ c

theorem removeFirstSock_length_le (l : List Client) (s : Nat) :
    (removeFirstSock l s).length ≤ l.length :=
  (removeFirstSock_sublist l s).length_le

/-- `NetServer.disconnect_if_timeout`'s `for`-loop, including Python's
iteration-while-removing behaviour: the loop index advances over the live
list, so the element after a removed one is skipped. -/
def disconnectIfTimeoutAux (now : Int) (l : List Client) (i : Nat) :
    List Client :=
  if h : i < l.length then
    disconnectIfTimeoutAux now
      (if l[i].watchDog < now - 5 then removeFirstSock l l[i].sock else l)
      (i + 1)
  else l
termination_by l.length - i
decreasing_by
  have hle : (if l[i].watchDog < now - 5 then
      removeFirstSock l l[i].sock else l).length ≤ l.length := by
    split
    · exact removeFirstSock_length_le _ _
    · exact le_rfl
  simp_wf
  omega

/-- `NetServer.disconnect_if_timeout` (the returned ip list is dropped). -/
def disconnectIfTimeout (st : ServerState) (now : Int) : ServerState :=
  { st with clients := disconnectIfTimeoutAux now st.clients 0 }

/-- One externally driven server event: an accepted connection, a readable
socket (with the bytes `recv` yielded), or the periodic timeout sweep. -/
inductive SEvent where
  | accept (ip : Nat) (now : Int)
  | read (sock : Nat) (recvData : Bytes) (now : Int)
  | timeout (now : Int)

/-- Dispatch of one event, as `NetServer.loop` / the `__main__` loop do. -/
def serverStep (st : ServerState) : SEvent → Except String ServerState
  | .accept ip now => .ok (acceptConnection st ip now)
  | .read sock recvData now => serviceRead st sock recvData now
  | .timeout now => .ok (disconnectIfTimeout st now)

/-- Run a sequence of server events. -/
def serverRun (st : ServerState) : List SEvent → Except String ServerState
  | [] => .ok st
  | e :: es =>
    match serverStep st e with
    | .error err => .error err
    | .ok st1 => serverRun st1 es

/-- A freshly started server configured with a group whitelist. -/
def initServer (groups : List String) : ServerState :=
  { clients := [], groups := groups, nextSock := 0 }

/-! ### Socket identity and outbound fan-out lemmas -/

/-- Python client dictionaries hold pairwise distinct socket objects; the
model states it as distinct `sock` ids. -/
abbrev socksNodup (clients : List Client) : Prop :=
  (clients.map (·.sock)).Nodup

theorem sendBytesTo_getElem? (clients : List Client) (sock : Nat)
    (data : Bytes) (j : Nat) :
    (sendBytesTo clients sock data)[j]? =
      (clients[j]?).map fun c =>
        if c.sock = sock then { c with outb := c.outb ++ data } else c := by
  simp [sendBytesTo, setClientBySock]

theorem joinRep_succ (frame : Bytes) (n : Nat) :
    frame ++ (List.replicate n frame).flatten =
      (List.replicate (n + 1) frame).flatten := by
  simp [List.replicate_succ]

theorem foldl_sendBytesTo_spec (frame : Bytes) (cond : Client → Prop)
    [DecidablePred cond] :
    ∀ (dcs acc : List Client) (j : Nat),
      (dcs.foldl
        (fun acc dc => if cond dc then sendBytesTo acc dc.sock frame else acc)
        acc)[j]? =
      (acc[j]?).map fun c =>
        { c with outb := c.outb ++
            (List.replicate
              (dcs.countP fun dc => decide (cond dc ∧ dc.sock = c.sock))
              frame).flatten } := by
  intro dcs
  induction dcs with
  | nil =>
    intro acc j
    simp only [List.foldl_nil, List.countP_nil, List.replicate_zero,
      List.flatten_nil, List.append_nil]
    cases h : acc[j]? with
    | none => simp
    | some c => cases c; simp
  | cons dc dcs ih =>
    intro acc j
    simp only [List.foldl_cons]
    rw [ih]
    by_cases hc : cond dc
    · simp only [if_pos hc, sendBytesTo_getElem?, Option.map_map]
      cases h : acc[j]? with
      | none => simp
      | some c =>
        simp only [Option.map_some', Function.comp]
        by_cases hs : c.sock = dc.sock
        · have hcount : (dc :: dcs).countP
              (fun d => decide (cond d ∧ d.sock = c.sock)) =
              (dcs.countP fun d => decide (cond d ∧ d.sock = c.sock)) + 1 := by
            rw [List.countP_cons]
            simp [hc, hs.symm]
          rw [hcount]
          simp [hs, List.append_assoc, joinRep_succ]
        · have hcount : (dc :: dcs).countP
              (fun d => decide (cond d ∧ d.sock = c.sock)) =
              dcs.countP fun d => decide (cond d ∧ d.sock = c.sock) := by
            rw [List.countP_cons]
            have hs2 : ¬ dc.sock = c.sock := fun hh => hs hh.symm
            simp [hs2]
          rw [hcount]
          simp [hs]
    · simp only [if_neg hc]
      cases h : acc[j]? with
      | none => simp
      | some c =>
        simp only [Option.map_some']
        have hcount : (dc :: dcs).countP
            (fun d => decide (cond d ∧ d.sock = c.sock)) =
            dcs.countP fun d => decide (cond d ∧ d.sock = c.sock) := by
          rw [List.countP_cons]
          simp [hc]
        rw [hcount]

theorem socksNodup_split (l1 l2 : List Client) (c : Client)
    (h : socksNodup (l1 ++ c :: l2)) :
    (∀ d ∈ l1, d.sock ≠ c.sock) ∧ ∀ d ∈ l2, d.sock ≠ c.sock := by
  unfold socksNodup at h
  rw [List.map_append] at h
  constructor
  · intro d hd he
    exact (List.disjoint_of_nodup_append h)
      (List.mem_map_of_mem _ hd) (by simp [he])
  · intro d hd he
    have h2 := h.of_append_right
    rw [List.map_cons, List.nodup_cons] at h2
    exact h2.1 (by simpa [he] using List.mem_map_of_mem (·.sock) hd)

theorem countP_sock_singleton (clients : List Client) (j : Nat)
    (hj : j < clients.length) (hnd : socksNodup clients)
    (r : Client → Prop) [DecidablePred r] :
    (clients.countP fun dc => decide (r dc ∧ dc.sock = clients[j].sock)) =
      if r clients[j] then 1 else 0 := by
  have hsplit : clients =
      clients.take j ++ clients[j] :: clients.drop (j + 1) := by
    conv_lhs => rw [← List.take_append_drop j clients]
    rw [List.drop_eq_getElem_cons hj]
  obtain ⟨h1, h2⟩ := socksNodup_split _ _ _ (hsplit ▸ hnd)
  rw [congrArg (List.countP fun dc =>
    decide (r dc ∧ dc.sock = clients[j].sock)) hsplit]
  rw [List.countP_append, List.countP_cons]
  have hz1 : (clients.take j).countP
      (fun dc => decide (r dc ∧ dc.sock = clients[j].sock)) = 0 :=
    List.countP_eq_zero.mpr (by
      intro d hd
      simp only [decide_eq_true_eq, not_and]
      exact fun _ => h1 d hd)
  have hz2 : (clients.drop (j + 1)).countP
      (fun dc => decide (r dc ∧ dc.sock = clients[j].sock)) = 0 :=
    List.countP_eq_zero.mpr (by
      intro d hd
      simp only [decide_eq_true_eq, not_and]
      exact fun _ => h2 d hd)
  rw [hz1, hz2]
  by_cases hr : r clients[j] <;> simp [hr]

/-- C3: relay semantics of a DATA frame accepted from an authenticated
client.  Broadcast (`dest = 255`) appends the raw frame bytes to every
same-group client other than the declared sender — in particular never
back to the sending client — and to nobody outside the group; a specific
`dest` reaches exactly the first (under address uniqueness: the) holder of
that address in the sender's group, and a missing destination changes
nothing. -/
theorem data_relay (clients : List Client) (sender : Client)
    (df : DecodedFrame) (frame : Bytes)
    (hnd : socksNodup clients) (hmem : sender ∈ clients)
    (hsaddr : sender.addr = df.sender) :
    (df.dest = ALL_CLIENTS →
      (∀ j : Nat, (serverProcessDataframe clients sender df frame)[j]? =
        (clients[j]?).map fun c =>
          if c.group = sender.group ∧ c.addr ≠ df.sender
          then { c with outb := c.outb ++ frame } else c) ∧
      (∀ j : Nat, clients[j]? = some sender →
        (serverProcessDataframe clients sender df frame)[j]? = some sender)) ∧
    (df.dest ≠ ALL_CLIENTS →
      (getClientByAddr clients df.dest sender.group = none →
        serverProcessDataframe clients sender df frame = clients) ∧
      (∀ dc, getClientByAddr clients df.dest sender.group = some dc →
        dc ∈ clients ∧ dc.addr = df.dest ∧ dc.group = sender.group ∧
        ∀ j : Nat, (serverProcessDataframe clients sender df frame)[j]? =
          (clients[j]?).map fun c =>
            if c.sock = dc.sock
            then { c with outb := c.outb ++ frame } else c)) := by
  constructor
  · intro hdest
    have hmain : ∀ j : Nat,
        (serverProcessDataframe clients sender df frame)[j]? =
        (clients[j]?).map fun c =>
          if c.group = sender.group ∧ c.addr ≠ df.sender
          then { c with outb := c.outb ++ frame } else c := by
      intro j
      unfold serverProcessDataframe
      rw [if_pos hdest]
      rw [foldl_sendBytesTo_spec frame (fun dc => dc.addr ≠ df.sender)]
      by_cases hj : j < clients.length
      · rw [List.getElem?_eq_getElem hj]
        simp only [Option.map_some']
        have hcnt : ((getClientsByGroup clients sender.group).countP
            fun dc => decide (dc.addr ≠ df.sender ∧
              dc.sock = clients[j].sock)) =
            clients.countP fun dc => decide ((dc.addr ≠ df.sender ∧
              dc.group = sender.group) ∧ dc.sock = clients[j].sock) := by
          unfold getClientsByGroup
          rw [List.countP_filter]
          apply List.countP_congr
          intro dc _
          simp [and_assoc, and_comm, and_left_comm]
        rw [hcnt, countP_sock_singleton clients j hj hnd
          (fun dc => dc.addr ≠ df.sender ∧ dc.group = sender.group)]
        by_cases hcond : clients[j].group = sender.group ∧
            clients[j].addr ≠ df.sender
        · rw [if_pos ⟨hcond.2, hcond.1⟩, if_pos hcond]
          simp
        · rw [if_neg (fun hh => hcond ⟨hh.2, hh.1⟩), if_neg hcond]
          cases clients[j]
          simp
      · rw [List.getElem?_eq_none (by omega)]
        simp
    refine ⟨hmain, fun j hjs => ?_⟩
    rw [hmain j, hjs]
    simp [hsaddr]
  · intro hdest
    constructor
    · intro hnone
      unfold serverProcessDataframe
      rw [if_neg hdest, hnone]
    · intro dc hdc
      have hdmem : dc ∈ clients := List.mem_of_find?_eq_some hdc
      have hpred := List.find?_some hdc
      simp only [Bool.and_eq_true, beq_iff_eq] at hpred
      refine ⟨hdmem, hpred.1, hpred.2, fun j => ?_⟩
      unfold serverProcessDataframe
      rw [if_neg hdest, hdc]
      rw [sendBytesTo_getElem?]

/-! ### Concrete fixtures -/

/-- Authenticated client `a` at address 1 of group `g` (socket id 1). -/
def clA : Client := ⟨0, "a", "g", [1], [], [], 1, 0⟩

/-- Authenticated client `b` at address 2 of group `g` (socket id 2). -/
def clB : Client := ⟨0, "b", "g", [2], [], [], 2, 0⟩

/-- Authenticated client `c` at address 3 of a different group `h`. -/
def clC : Client := ⟨0, "c", "h", [3], [], [], 3, 0⟩

/-- Three-client fixture state. -/
def clList : List Client := [clA, clB, clC]

/-- A decoded broadcast DATA frame declaring sender address 1. -/
def dfBroadcast : DecodedFrame := ⟨VERSION, [255], [1], [2], [0], []⟩

/-- The `{name, group}` AUTH payload. -/
def authPayload (name group : String) : JsonVal :=
  .obj (.cons "name" (.str name) (.cons "group" (.str group) .nil))

/-- C3 witness: broadcasting from `a` reaches `b` (same group), skips the
sender `a` and skips `c` (other group). -/
theorem data_relay_witness :
    (socksNodup clList ∧ clA ∈ clList ∧ clA.addr = dfBroadcast.sender) ∧
    (serverProcessDataframe clList clA dfBroadcast [9])[0]? = some clA ∧
    (serverProcessDataframe clList clA dfBroadcast [9])[1]? =
      some ⟨0, "b", "g", [2], [], [9], 2, 0⟩ ∧
    (serverProcessDataframe clList clA dfBroadcast [9])[2]? = some clC := by
  have h := (data_relay clList clA dfBroadcast [9] (by decide) (by decide)
    (by decide)).1 rfl
  exact ⟨⟨by decide, by decide, by decide⟩,
    (h.1 0).trans (by decide), (h.1 1).trans (by decide),
    (h.1 2).trans (by decide)⟩

/-! ### Claim C6: forged sender handling -/

/-- C6 (amended): a post-authentication frame of any type other than AUTH
whose declared sender differs from the client's allocated address is
dropped without any state change — the client stays connected, nothing is
relayed, not even the watchdog moves.  (AUTH frames are exempt: they are
dispatched to authentication before the sender check, see the
counterexample.) -/
theorem forged_sender_frame_dropped (st : ServerState) (sock : Nat)
    (fb : Bytes) (df : DecodedFrame) (c : Client) (now : Int)
    (hdec : decodeFrame fb = .ok df) (htype : df.type ≠ FRAME_TYPE_AUTH)
    (hfind : findClientBySock st.clients sock = some c)
    (hauth : c.group ≠ "") (hforge : c.addr ≠ df.sender) :
    serverProcessFrame st sock fb now = .ok st := by
  unfold serverProcessFrame
  rw [hdec]
  simp only [hfind]
  rw [if_neg htype]
  rw [if_neg hauth, if_pos hforge]

/-- C6 witness: a HEART frame with sender byte 2 from the client holding
address 1 is dropped and both clients stay. -/
theorem forged_sender_frame_dropped_witness :
    (decodeFrame [0, 0, 0, 11, 48, 50, 48, 0, 2, 3, 0] =
        .ok ⟨[48, 50, 48], [0], [2], [3], [0], []⟩ ∧
      (⟨[48, 50, 48], [0], [2], [3], [0], []⟩ : DecodedFrame).type ≠
        FRAME_TYPE_AUTH ∧
      findClientBySock clList 1 = some clA ∧
      clA.group ≠ "" ∧
      clA.addr ≠ (⟨[48, 50, 48], [0], [2], [3], [0], []⟩ : DecodedFrame).sender) ∧
    serverProcessFrame ⟨clList, ["g"], 9⟩ 1
      [0, 0, 0, 11, 48, 50, 48, 0, 2, 3, 0] 7 = .ok ⟨clList, ["g"], 9⟩ :=
  ⟨⟨by decide, by decide, by decide, by decide, by decide⟩,
    forged_sender_frame_dropped ⟨clList, ["g"], 9⟩ 1
      [0, 0, 0, 11, 48, 50, 48, 0, 2, 3, 0]
      ⟨[48, 50, 48], [0], [2], [3], [0], []⟩ clA 7 (by decide)
      (by decide) (by decide) (by decide) (by decide)⟩

set_option maxRecDepth 100000 in
/-- C6 counterexample to the claim as stated: an AUTH frame is also a
post-authentication frame with a forged sender byte (7 instead of 1), yet
it is not dropped — it is processed as a fresh authentication, and because
the requested name `b` is taken, the server disconnects the client: the
connection does not stay open. -/
theorem forged_sender_auth_processed :
    ∃ fb : Bytes,
      encodeFrame [7] ⟨SERVER_ADDR, FRAME_TYPE_AUTH,
        some (authPayload "b" "g"), none⟩ = some fb ∧
      ∃ st' : ServerState,
        serverProcessFrame ⟨[clA, clB], ["g"], 3⟩ 1 fb 0 = .ok st' ∧
        st'.clients.map (·.sock) = [2] :=
  ⟨_, rfl, _, rfl, rfl⟩

/-! ### Claim C7: inbound buffer limit -/

theorem map_sock_setClientBySock (clients : List Client) (sock : Nat)
    (f : Client → Client) (hf : ∀ c, (f c).sock = c.sock) :
    (setClientBySock clients sock f).map (·.sock) = clients.map (·.sock) := by
  unfold setClientBySock
  rw [List.map_map]
  apply List.map_congr_left
  intro c _
  by_cases h : c.sock = sock <;> simp [h, hf]

theorem removeFirstSock_sock_not_mem (l : List Client) (s : Nat)
    (hnd : socksNodup l) : ∀ d ∈ removeFirstSock l s, d.sock ≠ s := by
  induction l with
  | nil => simp [removeFirstSock]
  | cons c tl ih =>
    rw [socksNodup, List.map_cons, List.nodup_cons] at hnd
    intro d hd
    by_cases h : c.sock = s
    · rw [removeFirstSock, if_pos h] at hd
      intro he
      exact hnd.1 (h ▸ he ▸ List.mem_map_of_mem (·.sock) hd)
    · rw [removeFirstSock, if_neg h] at hd
      rcases List.mem_cons.mp hd with rfl | hd2
      · exact h
      · exact ih hnd.2 d hd2

theorem nodeProcessFrame_socketOpen (s : NodeState) (fb : Bytes)
    (s' : NodeState) (h : nodeProcessFrame s fb = .ok s') :
    s'.socketOpen = s.socketOpen := by
  unfold nodeProcessFrame nodeProcessPeersframe nodeProcessSysmframe at h
  repeat' split at h
  all_goals try simp at h
  all_goals repeat' split at h
  all_goals try simp at h
  all_goals try subst h
  all_goals rfl

theorem nodeProcessInbuf_socketOpen :
    ∀ (fuel : Nat) (s s' : NodeState),
      nodeProcessInbuf fuel s = .ok s' → s'.socketOpen = s.socketOpen := by
  intro fuel
  induction fuel with
  | zero =>
    intro s s' h
    exact absurd h (by simp [nodeProcessInbuf])
  | succ f ih =>
    intro s s' h
    unfold nodeProcessInbuf at h
    split at h
    · simp only [Except.ok.injEq] at h
      subst h
      rfl
    next fb rest heq =>
      split at h
      · exact absurd h (by simp)
      next s2 hframe =>
        split at h
        · exact (ih s2 s' h).trans
            (nodeProcessFrame_socketOpen { s with inBuf := rest } fb s2 hframe)
        · simp only [Except.ok.injEq] at h
          subst h
          exact nodeProcessFrame_socketOpen { s with inBuf := rest } fb _ hframe

/-- C7 (amended): only the server enforces the 102400-byte inbound limit —
a read pushing a client's buffer beyond `IN_BUFFER_LIMIT` removes that
client's connection; the client node's `process_recv` checks no limit and
never closes its socket. -/
theorem inbound_buffer_limit :
    (∀ (st : ServerState) (sock : Nat) (c : Client) (recvData : Bytes)
        (now : Int),
      socksNodup st.clients →
      findClientBySock st.clients sock = some c →
      recvData ≠ [] →
      IN_BUFFER_LIMIT < c.inb.length + recvData.length →
      ∃ st', serviceRead st sock recvData now = .ok st' ∧
        ∀ d ∈ st'.clients, d.sock ≠ sock) ∧
    (∀ (s : NodeState) (received : Bytes) (s' : NodeState),
      nodeProcessRecv s received = .ok s' → s'.socketOpen = s.socketOpen) := by
  constructor
  · intro st sock c recvData now hnd hfind hrecv hover
    refine ⟨serverDisconnect ⟨setClientBySock st.clients sock
      (fun cc => { cc with inb := cc.inb ++ recvData }), st.groups,
      st.nextSock⟩ sock, ?_, ?_⟩
    · unfold serviceRead
      simp only [hfind]
      rw [if_neg hrecv, if_pos hover]
    · intro d hd
      have hnd2 : socksNodup (setClientBySock st.clients sock
          fun cc => { cc with inb := cc.inb ++ recvData }) := by
        rw [socksNodup, map_sock_setClientBySock st.clients sock
          (fun cc => { cc with inb := cc.inb ++ recvData }) (fun cc => rfl)]
        exact hnd
      exact removeFirstSock_sock_not_mem _ sock hnd2 d hd
  · intro s received s' h
    exact nodeProcessInbuf_socketOpen (s.inBuf.length + received.length + 1)
      { s with inBuf := s.inBuf ++ received } s' h

/-- A 102400-byte inbound buffer (kept as a named definition so that
rewriting uses its length lemma rather than expanding the list). -/
def bigBuf : Bytes := List.replicate 102400 0

theorem bigBuf_length : bigBuf.length = 102400 := by
  rw [show bigBuf = List.replicate 102400 0 from rfl, List.length_replicate]

/-- A 102401-byte chunk of `0xff` bytes, an incomplete frame whose length
prefix announces 4294967295 bytes. -/
def hugeBuf : Bytes := List.replicate 102401 255

theorem hugeBuf_length : hugeBuf.length = 102401 := by
  rw [show hugeBuf = List.replicate 102401 255 from rfl, List.length_replicate]

theorem hugeBuf_take4 : List.take 4 hugeBuf = [255, 255, 255, 255] := by
  rw [show hugeBuf = List.replicate 102401 255 from rfl, List.take_replicate]
  rfl

/-- A server client record sitting on a full inbound buffer. -/
def bigClient : Client := ⟨0, "a", "g", [1], bigBuf, [], 1, 0⟩

theorem bigClient_inb : bigClient.inb = bigBuf := rfl

theorem wit_bufOver :
    IN_BUFFER_LIMIT < bigClient.inb.length + ([0] : Bytes).length := by
  rw [bigClient_inb, bigBuf_length]
  decide

theorem wit_bufNodup : socksNodup [bigClient] := by
  simp [socksNodup]

theorem wit_bufFind : findClientBySock [bigClient] 1 = some bigClient := rfl

/-- C7 witness: the server side disconnects a client whose buffer reaches
102401 bytes; the client side returns with its socket state untouched. -/
theorem inbound_buffer_limit_witness :
    (socksNodup [bigClient] ∧
      findClientBySock [bigClient] 1 = some bigClient ∧
      ([0] : Bytes) ≠ [] ∧
      IN_BUFFER_LIMIT < bigClient.inb.length + ([0] : Bytes).length) ∧
    (∃ st', serviceRead ⟨[bigClient], ["g"], 9⟩ 1 [0] 3 = .ok st' ∧
      ∀ d ∈ st'.clients, d.sock ≠ 1) ∧
    ({ initNode with inBuf := [1, 2, 3] } : NodeState).socketOpen =
      initNode.socketOpen :=
  ⟨⟨wit_bufNodup, wit_bufFind, by simp, wit_bufOver⟩,
    inbound_buffer_limit.1 ⟨[bigClient], ["g"], 9⟩ 1 bigClient [0] 3
      wit_bufNodup wit_bufFind (by simp) wit_bufOver,
    inbound_buffer_limit.2 initNode [1, 2, 3]
      { initNode with inBuf := [1, 2, 3] } rfl⟩

theorem hugeBuf_not_short : ¬ (hugeBuf.length < HEADER_SIZE) := by
  rw [hugeBuf_length]
  norm_num [HEADER_SIZE]

theorem hugeBuf_incomplete : hugeBuf.length < fromBytesBE (hugeBuf.take 4) := by
  rw [hugeBuf_length, hugeBuf_take4]
  norm_num [fromBytesBE, List.foldl]

theorem getFrame_hugeBuf : getFrame hugeBuf = (none, hugeBuf) := by
  unfold getFrame
  rw [if_neg hugeBuf_not_short]
  rw [if_pos hugeBuf_incomplete]

/-- When no complete frame is buffered, `_process_inbuf` returns with the
state unchanged. -/
theorem nodeProcessInbuf_none (fuel : Nat) (s : NodeState)
    (hb : getFrame s.inBuf = (none, s.inBuf)) :
    nodeProcessInbuf (fuel + 1) s = .ok s := by
  unfold nodeProcessInbuf
  rw [hb]

/-- C7 counterexample to the claim as stated: the client node reads its
inbound buffer past the limit (102401 buffered bytes of an incomplete
frame) and stays connected — `process_recv` never disconnects. -/
theorem node_recv_ignores_limit :
    ∃ s2 : NodeState,
      nodeProcessRecv initNode hugeBuf = .ok s2 ∧
      s2.socketOpen = true ∧ IN_BUFFER_LIMIT < s2.inBuf.length := by
  refine ⟨{ initNode with inBuf := hugeBuf }, ?_, rfl, ?_⟩
  · show nodeProcessInbuf (initNode.inBuf.length + hugeBuf.length + 1)
      { initNode with inBuf := initNode.inBuf ++ hugeBuf } = _
    rw [show ({ initNode with inBuf := initNode.inBuf ++ hugeBuf } :
      NodeState) = { initNode with inBuf := hugeBuf } from rfl]
    exact nodeProcessInbuf_none _ _ getFrame_hugeBuf
  · rw [show ({ initNode with inBuf := hugeBuf } : NodeState).inBuf = hugeBuf
      from rfl, hugeBuf_length]
    decide

/-! ### Claim C8: PEERS broadcast -/

theorem foldl_sendBytesTo_all (frame : Bytes) (dcs acc : List Client)
    (j : Nat) :
    (dcs.foldl (fun acc dc => sendBytesTo acc dc.sock frame) acc)[j]? =
      (acc[j]?).map fun c =>
        { c with outb := c.outb ++
            (List.replicate (dcs.countP fun dc => decide (dc.sock = c.sock))
              frame).flatten } := by
  have hfun : (fun (acc : List Client) (dc : Client) =>
      if True then sendBytesTo acc dc.sock frame else acc) =
      fun acc dc => sendBytesTo acc dc.sock frame := by
    funext acc dc
    simp
  have h := foldl_sendBytesTo_spec frame (fun _ => True) dcs acc j
  rw [hfun] at h
  rw [h]
  cases acc[j]? with
  | none => rfl
  | some c =>
    have : (dcs.countP fun dc => decide (True ∧ dc.sock = c.sock)) =
        dcs.countP fun dc => decide (dc.sock = c.sock) :=
      List.countP_congr (fun dc _ => by simp)
    simp [this]

theorem disconnectIfTimeoutAux_sublist (now : Int) :
    ∀ (l : List Client) (i : Nat), (disconnectIfTimeoutAux now l i).Sublist l := by
  suffices h : ∀ (k : Nat) (l : List Client) (i : Nat), l.length - i ≤ k →
      (disconnectIfTimeoutAux now l i).Sublist l by
    intro l i
    exact h l.length l i (by omega)
  intro k
  induction k with
  | zero =>
    intro l i h
    rw [disconnectIfTimeoutAux, dif_neg (by omega)]
  | succ k ih =>
    intro l i h
    rw [disconnectIfTimeoutAux]
    by_cases hi : i < l.length
    · rw [dif_pos hi]
      have hsub : (if l[i].watchDog < now - 5 then
          removeFirstSock l l[i].sock else l).Sublist l := by
        split
        · exact removeFirstSock_sublist _ _
        · exact List.Sublist.refl _
      exact (ih _ (i + 1) (by have := hsub.length_le; omega)).trans hsub
    · rw [dif_neg hi]

/-- C8 (amended): the server broadcasts a PEERS frame carrying the full
current membership to every client of the group exactly when an
authentication succeeds (`authAssign`, the shared tail of both the named
and the server-named path); disconnections and watchdog evictions remove
records but write no bytes to anyone (`disconnect_if_timeout` only ever
shrinks the client list, leaving every surviving record — its outbound
buffer included — untouched). -/
theorem peers_broadcast_on_auth (st : ServerState) (sock : Nat)
    (name g : String) (a e : Bytes)
    (hnd : socksNodup st.clients)
    (hfree : getFreeAddr st.clients g = some a)
    (henc : encodeFrame SERVER_ADDR ⟨ALL_CLIENTS, FRAME_TYPE_PEERS,
      some (getPeersList (setClientBySock st.clients sock
        fun c => { c with name := name, group := g, addr := a }) g),
      none⟩ = some e) :
    (∃ st', authAssign st sock name g = .ok st' ∧
      ∀ j : Nat, st'.clients[j]? =
        ((setClientBySock st.clients sock
          fun c => { c with name := name, group := g, addr := a })[j]?).map
          fun c => if c.group = g then { c with outb := c.outb ++ e }
            else c) ∧
    (∀ (st0 : ServerState) (now : Int),
      (disconnectIfTimeout st0 now).clients.Sublist st0.clients) := by
  constructor
  · unfold authAssign
    simp only [hfree]
    unfold sendPeersFrame
    simp only [henc]
    refine ⟨_, rfl, fun j => ?_⟩
    set mid := setClientBySock st.clients sock
      fun c => { c with name := name, group := g, addr := a } with hmid
    have hndmid : socksNodup mid := by
      rw [hmid, socksNodup, map_sock_setClientBySock st.clients sock
        (fun c => { c with name := name, group := g, addr := a })
        (fun c => rfl)]
      exact hnd
    rw [foldl_sendBytesTo_all]
    by_cases hj : j < mid.length
    · rw [List.getElem?_eq_getElem hj]
      simp only [Option.map_some']
      have hcnt : ((getClientsByGroup mid g).countP
          fun dc => decide (dc.sock = mid[j].sock)) =
          mid.countP fun dc =>
            decide (dc.group = g ∧ dc.sock = mid[j].sock) := by
        unfold getClientsByGroup
        rw [List.countP_filter]
        apply List.countP_congr
        intro dc _
        simp [and_comm]
      rw [hcnt, countP_sock_singleton mid j hj hndmid fun dc => dc.group = g]
      by_cases hg : mid[j].group = g
      · rw [if_pos hg, if_pos hg]
        simp
      · rw [if_neg hg, if_neg hg]
        cases mid[j]
        simp
    · rw [List.getElem?_eq_none (by omega)]
      rfl
  · intro st0 now
    exact disconnectIfTimeoutAux_sublist now st0.clients 0

/-- An unauthenticated, freshly accepted client (socket id 5). -/
def clU : Client := ⟨0, "", "", [255], [], [], 5, 0⟩

set_option maxRecDepth 20000 in
/-- C8 witness: authenticating `x` into group `g` (lowest free address 1)
broadcasts the encoded PEERS frame to every member of `g`. -/
theorem peers_broadcast_on_auth_witness :
    (socksNodup [clU] ∧
      getFreeAddr [clU] "g" = some [1]) ∧
    ∃ e : Bytes,
      encodeFrame SERVER_ADDR ⟨ALL_CLIENTS, FRAME_TYPE_PEERS,
        some (getPeersList (setClientBySock [clU] 5
          fun c => { c with name := "x", group := "g", addr := [1] }) "g"),
        none⟩ = some e ∧
      ∃ st', authAssign ⟨[clU], ["g"], 9⟩ 5 "x" "g" = .ok st' ∧
        ∀ j : Nat, st'.clients[j]? =
          ((setClientBySock [clU] 5
            fun c => { c with name := "x", group := "g", addr := [1] })[j]?).map
            fun c => if c.group = "g" then { c with outb := c.outb ++ e }
              else c := by
  refine ⟨⟨by decide, by decide⟩, _, rfl, ?_⟩
  exact (peers_broadcast_on_auth ⟨[clU], ["g"], 9⟩ 5 "x" "g" [1] _
    (by decide) (by decide) rfl).1

/-- A still-fresh group member (watchdog at 9). -/
def freshB : Client := ⟨0, "b", "g", [2], [], [], 2, 9⟩

/-- C8 counterexample to the claim as stated: evicting the stale client
`a` (watchdog 0, now 10) changes the membership of group `g`, yet no
PEERS frame is broadcast — the surviving member `b`'s outbound buffer
stays empty. -/
theorem eviction_sends_no_peers_frame :
    (disconnectIfTimeout ⟨[clA, freshB], ["g"], 5⟩ 10).clients = [freshB] ∧
    freshB.outb = [] := by
  constructor
  · show disconnectIfTimeoutAux 10 [clA, freshB] 0 = [freshB]
    rw [disconnectIfTimeoutAux, dif_pos (by norm_num)]
    have hstale : ([clA, freshB][0].watchDog < (10 : Int) - 5) = True := by
      simp [clA]
    rw [if_pos (of_eq_true hstale)]
    have hrem : removeFirstSock [clA, freshB] [clA, freshB][0].sock =
        [freshB] := by
      simp [removeFirstSock, clA]
    rw [hrem]
    rw [disconnectIfTimeoutAux, dif_neg (by norm_num)]
  · rfl

/-! ### Claim C4: address allocation and uniqueness -/

theorem getFreeAddrAux_spec (clients : List Client) (g : String) :
    ∀ (k s : Nat) (b : Bytes),
      getFreeAddrAux clients g (List.range' s k) = some b →
      ∃ n, b = [n] ∧ s ≤ n ∧ n < s + k ∧
        getClientByAddr clients [n] g = none ∧
        ∀ m, s ≤ m → m < n → (getClientByAddr clients [m] g).isSome := by
  intro k
  induction k with
  | zero =>
    intro s b h
    exact absurd h (by simp [List.range', getFreeAddrAux])
  | succ k ih =>
    intro s b h
    rw [show List.range' s (k + 1) = s :: List.range' (s + 1) k from rfl] at h
    unfold getFreeAddrAux at h
    by_cases hfree : (getClientByAddr clients [s] g).isNone
    · rw [if_pos hfree] at h
      refine ⟨s, by simpa using h.symm, le_rfl, by omega,
        Option.isNone_iff_eq_none.mp hfree, fun m h1 h2 => by omega⟩
    · rw [if_neg hfree] at h
      obtain ⟨n, hb, hs, hlt, hnone, hmin⟩ := ih (s + 1) b h
      refine ⟨n, hb, by omega, by omega, hnone, fun m h1 h2 => ?_⟩
      by_cases hm : m = s
      · subst hm
        exact Option.isSome_iff_ne_none.mpr
          (fun hh => hfree (Option.isNone_iff_eq_none.mpr hh))
      · exact hmin m (by omega) h2

theorem getFreeAddr_spec (clients : List Client) (g : String) (b : Bytes)
    (h : getFreeAddr clients g = some b) :
    ∃ n, b = [n] ∧ 1 ≤ n ∧ n ≤ 254 ∧
      getClientByAddr clients [n] g = none ∧
      ∀ m, 1 ≤ m → m < n → (getClientByAddr clients [m] g).isSome := by
  obtain ⟨n, hb, h1, h2, h3, h4⟩ := getFreeAddrAux_spec clients g 254 1 b h
  exact ⟨n, hb, h1, by omega, h3, h4⟩

/-- The address part of the server invariant: every authenticated client
holds a one-byte address in `1..254`, pairwise distinct within a group. -/
def GoodAddrs (clients : List Client) : Prop :=
  (∀ c ∈ clients, c.group ≠ "" → ∃ n, c.addr = [n] ∧ 1 ≤ n ∧ n ≤ 254) ∧
  clients.Pairwise fun c1 c2 =>
    c1.group = c2.group → c1.group ≠ "" → c1.addr ≠ c2.addr

/-- Full server invariant: distinct sockets (bounded by the accept
counter) and well-formed addresses. -/
def ServerInv (st : ServerState) : Prop :=
  socksNodup st.clients ∧ (∀ c ∈ st.clients, c.sock < st.nextSock) ∧
    GoodAddrs st.clients

theorem inv_clients_map (st : ServerState) (f : Client → Client)
    (hf : ∀ c, (f c).sock = c.sock ∧ (f c).addr = c.addr ∧
      (f c).group = c.group) (hinv : ServerInv st) :
    ServerInv ⟨st.clients.map f, st.groups, st.nextSock⟩ := by
  obtain ⟨hnd, hbound, hmem, hpw⟩ := hinv
  refine ⟨?_, ?_, ?_, ?_⟩
  · rw [socksNodup, List.map_map]
    have : ((·.sock) ∘ f) = fun c : Client => c.sock := by
      funext c
      exact (hf c).1
    rw [this]
    exact hnd
  · intro c hc
    obtain ⟨c0, hc0, rfl⟩ := List.mem_map.mp hc
    rw [(hf c0).1]
    exact hbound c0 hc0
  · intro c hc
    obtain ⟨c0, hc0, rfl⟩ := List.mem_map.mp hc
    rw [(hf c0).2.1, (hf c0).2.2]
    exact hmem c0 hc0
  · rw [List.pairwise_map]
    refine hpw.imp ?_
    intro a b hab
    rw [(hf a).2.1, (hf a).2.2, (hf b).2.1, (hf b).2.2]
    exact hab

theorem inv_setClientBySock (st : ServerState) (sock : Nat)
    (f : Client → Client)
    (hf : ∀ c, (f c).sock = c.sock ∧ (f c).addr = c.addr ∧
      (f c).group = c.group) (hinv : ServerInv st) :
    ServerInv ⟨setClientBySock st.clients sock f, st.groups, st.nextSock⟩ := by
  refine inv_clients_map st _ ?_ hinv
  intro c
  by_cases h : c.sock = sock <;> simp [h, hf]

theorem inv_clients_sublist (st : ServerState) (cl : List Client)
    (h : cl.Sublist st.clients) (hinv : ServerInv st) :
    ServerInv ⟨cl, st.groups, st.nextSock⟩ := by
  obtain ⟨hnd, hbound, hmem, hpw⟩ := hinv
  exact ⟨hnd.sublist (h.map (·.sock)),
    fun c hc => hbound c (h.subset hc),
    fun c hc => hmem c (h.subset hc),
    hpw.sublist h⟩

theorem inv_serverDisconnect (st : ServerState) (sock : Nat)
    (hinv : ServerInv st) : ServerInv (serverDisconnect st sock) :=
  inv_clients_sublist st _ (removeFirstSock_sublist st.clients sock) hinv

theorem inv_accept (st : ServerState) (ip : Nat) (now : Int)
    (hinv : ServerInv st) : ServerInv (acceptConnection st ip now) := by
  obtain ⟨hnd, hbound, hmem, hpw⟩ := hinv
  show ServerInv ⟨st.clients ++ [freshClient st.nextSock ip now], st.groups,
    st.nextSock + 1⟩
  refine ⟨?_, ?_, ?_, ?_⟩
  · rw [socksNodup, List.map_append]
    rw [List.nodup_append]
    refine ⟨hnd, by simp [freshClient], ?_⟩
    intro a ha
    obtain ⟨c0, hc0, rfl⟩ := List.mem_map.mp ha
    simp only [freshClient, List.map_cons, List.map_nil, List.mem_singleton]
    intro he
    exact absurd he (by have := hbound c0 hc0; omega)
  · intro c hc
    rcases List.mem_append.mp hc with hc | hc
    · have := hbound c hc
      show c.sock < st.nextSock + 1
      omega
    · simp only [List.mem_singleton] at hc
      subst hc
      show (freshClient st.nextSock ip now).sock < st.nextSock + 1
      simp [freshClient]
  · intro c hc
    rcases List.mem_append.mp hc with hc | hc
    · exact hmem c hc
    · simp only [List.mem_singleton] at hc
      subst hc
      simp [freshClient]
  · rw [List.pairwise_append]
    refine ⟨hpw, by simp, ?_⟩
    intro a _ b hb
    simp only [List.mem_singleton] at hb
    subst hb
    intro hg hg2
    exact absurd (by simpa [freshClient] using hg) hg2

theorem socksNodup_getElem_ne (l : List Client) (hnd : socksNodup l)
    (i j : Nat) (hi : i < l.length) (hj : j < l.length) (hij : i ≠ j) :
    l[i].sock ≠ l[j].sock := by
  intro he
  have hi2 : i < (l.map (·.sock)).length := by simpa using hi
  have hj2 : j < (l.map (·.sock)).length := by simpa using hj
  have h1 : (l.map (·.sock))[i] = (l.map (·.sock))[j] := by
    rw [List.getElem_map, List.getElem_map]
    exact he
  exact hij ((List.Nodup.getElem_inj_iff hnd).mp h1)

theorem getClientByAddr_none_iff (clients : List Client) (addr : Bytes)
    (g : String) (h : getClientByAddr clients addr g = none) :
    ∀ c ∈ clients, ¬ (c.addr = addr ∧ c.group = g) := by
  intro c hc hcontr
  have := List.find?_eq_none.mp h c hc
  simp only [Bool.and_eq_true, beq_iff_eq] at this
  exact this ⟨hcontr.1, hcontr.2⟩

theorem inv_assign (st : ServerState) (sock : Nat) (name g : String)
    (a : Bytes) (hfree : getFreeAddr st.clients g = some a)
    (hinv : ServerInv st) :
    ServerInv ⟨setClientBySock st.clients sock
      (fun c => { c with name := name, group := g, addr := a }),
      st.groups, st.nextSock⟩ := by
  obtain ⟨n, rfl, hn1, hn2, hnone, -⟩ := getFreeAddr_spec st.clients g a hfree
  have htaken := getClientByAddr_none_iff st.clients [n] g hnone
  obtain ⟨hnd, hbound, hmem, hpw⟩ := hinv
  refine ⟨?_, ?_, ?_, ?_⟩
  · rw [socksNodup, map_sock_setClientBySock st.clients sock
      (fun c => { c with name := name, group := g, addr := [n] })
      (fun c => rfl)]
    exact hnd
  · intro c hc
    obtain ⟨c0, hc0, rfl⟩ := List.mem_map.mp hc
    by_cases h : c0.sock = sock <;> simpa [h] using hbound c0 hc0
  · intro c hc
    obtain ⟨c0, hc0, rfl⟩ := List.mem_map.mp hc
    by_cases h : c0.sock = sock
    · simp only [if_pos h]
      intro _
      exact ⟨n, rfl, hn1, hn2⟩
    · simp only [if_neg h]
      exact hmem c0 hc0
  · rw [List.pairwise_iff_getElem]
    intro i j hi hj hij
    have hilen : i < st.clients.length := by
      simpa [setClientBySock] using hi
    have hjlen : j < st.clients.length := by
      simpa [setClientBySock] using hj
    have hgeti : (setClientBySock st.clients sock
        (fun c => { c with name := name, group := g, addr := [n] }))[i] =
        if st.clients[i].sock = sock
        then { st.clients[i] with name := name, group := g, addr := [n] }
        else st.clients[i] := by
      simp [setClientBySock]
    have hgetj : (setClientBySock st.clients sock
        (fun c => { c with name := name, group := g, addr := [n] }))[j] =
        if st.clients[j].sock = sock
        then { st.clients[j] with name := name, group := g, addr := [n] }
        else st.clients[j] := by
      simp [setClientBySock]
    rw [hgeti, hgetj]
    have hsock := socksNodup_getElem_ne st.clients hnd i j hilen hjlen
      (by omega)
    have hold := List.pairwise_iff_getElem.mp hpw i j hilen hjlen hij
    by_cases hi2 : st.clients[i].sock = sock
    · rw [if_pos hi2]
      have hj2 : ¬ st.clients[j].sock = sock := by
        rw [← hi2]
        exact fun hh => hsock hh.symm
      rw [if_neg hj2]
      intro hg hg2 he
      exact htaken st.clients[j] (st.clients.getElem_mem hjlen)
        ⟨he.symm, hg.symm⟩
    · rw [if_neg hi2]
      by_cases hj2 : st.clients[j].sock = sock
      · rw [if_pos hj2]
        intro hg hg2 he
        exact htaken st.clients[i] (st.clients.getElem_mem hilen)
          ⟨he, hg⟩
      · rw [if_neg hj2]
        exact hold

theorem inv_foldl_send (groups : List String) (nextSock : Nat) (e : Bytes)
    (cond : Client → Prop) [DecidablePred cond] :
    ∀ (dcs cl : List Client), ServerInv ⟨cl, groups, nextSock⟩ →
      ServerInv ⟨dcs.foldl
        (fun acc dc => if cond dc then sendBytesTo acc dc.sock e else acc) cl,
        groups, nextSock⟩ := by
  intro dcs
  induction dcs with
  | nil => intro cl h; exact h
  | cons dc dcs ih =>
    intro cl h
    rw [List.foldl_cons]
    by_cases hc : cond dc
    · rw [if_pos hc]
      exact ih _ (inv_setClientBySock ⟨cl, groups, nextSock⟩ dc.sock _
        (fun c => ⟨rfl, rfl, rfl⟩) h)
    · rw [if_neg hc]
      exact ih _ h

theorem inv_foldl_send_all (groups : List String) (nextSock : Nat) (e : Bytes) :
    ∀ (dcs cl : List Client), ServerInv ⟨cl, groups, nextSock⟩ →
      ServerInv ⟨dcs.foldl (fun acc dc => sendBytesTo acc dc.sock e) cl,
        groups, nextSock⟩ := by
  intro dcs
  induction dcs with
  | nil => intro cl h; exact h
  | cons dc dcs ih =>
    intro cl h
    rw [List.foldl_cons]
    exact ih _ (inv_setClientBySock ⟨cl, groups, nextSock⟩ dc.sock _
      (fun c => ⟨rfl, rfl, rfl⟩) h)

theorem inv_sendPeersFrame (st : ServerState) (g : String)
    (st' : ServerState) (h : sendPeersFrame st g = .ok st')
    (hinv : ServerInv st) : ServerInv st' := by
  unfold sendPeersFrame at h
  split at h
  · exact absurd h (by simp)
  · simp only [Except.ok.injEq] at h
    subst h
    exact inv_foldl_send_all st.groups st.nextSock _ _ st.clients hinv

theorem inv_sendSysmNameFrame (st : ServerState) (client : Client)
    (name : String) (st' : ServerState)
    (h : sendSysmNameFrame st client name = .ok st')
    (hinv : ServerInv st) : ServerInv st' := by
  unfold sendSysmNameFrame at h
  split at h
  · exact absurd h (by simp)
  · simp only [Except.ok.injEq] at h
    subst h
    exact inv_setClientBySock st client.sock _ (fun c => ⟨rfl, rfl, rfl⟩) hinv

theorem inv_authAssign (st : ServerState) (sock : Nat) (name g : String)
    (st' : ServerState) (h : authAssign st sock name g = .ok st')
    (hinv : ServerInv st) : ServerInv st' := by
  unfold authAssign at h
  split at h
  · simp only [Except.ok.injEq] at h
    subst h
    exact inv_serverDisconnect st sock hinv
  next a hfree =>
    exact inv_sendPeersFrame _ g st' h (inv_assign st sock name g a hfree hinv)

theorem inv_processAuthframe (st : ServerState) (sock : Nat)
    (df : DecodedFrame) (st' : ServerState)
    (h : processAuthframe st sock df = .ok st')
    (hinv : ServerInv st) : ServerInv st' := by
  unfold processAuthframe at h
  repeat' split at h
  all_goals try (exfalso; simp at h; done)
  all_goals try
    (simp only [Except.ok.injEq] at h; subst h;
      first
        | exact hinv
        | exact inv_serverDisconnect _ _ hinv)
  all_goals try exact inv_authAssign _ _ _ _ _ h hinv
  next st1 hsysm =>
    exact inv_authAssign _ _ _ _ _ h
      (inv_sendSysmNameFrame _ _ _ _ hsysm hinv)

theorem inv_serverProcessDataframe (groups : List String) (ns : Nat)
    (clients : List Client) (client : Client) (df : DecodedFrame)
    (frame : Bytes) (hinv : ServerInv ⟨clients, groups, ns⟩) :
    ServerInv ⟨serverProcessDataframe clients client df frame, groups, ns⟩ := by
  unfold serverProcessDataframe
  split
  · exact inv_foldl_send groups ns frame _ _ clients hinv
  · split
    · exact inv_setClientBySock ⟨clients, groups, ns⟩ _ _
        (fun c => ⟨rfl, rfl, rfl⟩) hinv
    · exact hinv

theorem inv_serverProcessFrame (st : ServerState) (sock : Nat) (fb : Bytes)
    (now : Int) (st' : ServerState)
    (h : serverProcessFrame st sock fb now = .ok st')
    (hinv : ServerInv st) : ServerInv st' := by
  unfold serverProcessFrame at h
  split at h
  · exact absurd h (by simp)
  · split at h
    · exact inv_processAuthframe _ _ _ _ h hinv
    · split at h
      · simp only [Except.ok.injEq] at h
        subst h
        exact hinv
      · split at h
        · simp only [Except.ok.injEq] at h
          subst h
          exact hinv
        · split at h
          · simp only [Except.ok.injEq] at h
            subst h
            exact hinv
          · split at h
            · simp only [Except.ok.injEq] at h
              subst h
              exact inv_serverProcessDataframe st.groups st.nextSock _ _ _ _
                (inv_setClientBySock st sock _ (fun c => ⟨rfl, rfl, rfl⟩) hinv)
            · simp only [Except.ok.injEq] at h
              subst h
              exact inv_setClientBySock st sock _ (fun c => ⟨rfl, rfl, rfl⟩)
                hinv

theorem inv_processBuf :
    ∀ (fuel : Nat) (st : ServerState) (sock : Nat) (now : Int)
      (st' : ServerState), processBuf fuel st sock now = .ok st' →
      ServerInv st → ServerInv st' := by
  intro fuel
  induction fuel with
  | zero =>
    intro st sock now st' h _
    exact absurd h (by simp [processBuf])
  | succ f ih =>
    intro st sock now st' h hinv
    unfold processBuf at h
    split at h
    · simp only [Except.ok.injEq] at h
      subst h
      exact hinv
    · split at h
      · simp only [Except.ok.injEq] at h
        subst h
        exact inv_setClientBySock st sock _ (fun c => ⟨rfl, rfl, rfl⟩) hinv
      · simp only [] at h
        split at h
        · exact absurd h (by simp)
        next st2 hframe =>
          exact ih st2 sock now st' h
            (inv_serverProcessFrame _ sock _ now st2 hframe
              (inv_setClientBySock st sock _ (fun c => ⟨rfl, rfl, rfl⟩) hinv))

theorem inv_serviceRead (st : ServerState) (sock : Nat) (recvData : Bytes)
    (now : Int) (st' : ServerState)
    (h : serviceRead st sock recvData now = .ok st')
    (hinv : ServerInv st) : ServerInv st' := by
  unfold serviceRead at h
  split at h
  · simp only [Except.ok.injEq] at h
    subst h
    exact hinv
  · split at h
    · simp only [Except.ok.injEq] at h
      subst h
      exact inv_serverDisconnect st sock hinv
    · split at h
      · simp only [Except.ok.injEq] at h
        subst h
        exact inv_serverDisconnect _ sock
          (inv_setClientBySock st sock _ (fun c => ⟨rfl, rfl, rfl⟩) hinv)
      · exact inv_processBuf _ _ sock now st' h
          (inv_setClientBySock st sock _ (fun c => ⟨rfl, rfl, rfl⟩) hinv)

theorem inv_serverStep (st : ServerState) (e : SEvent) (st' : ServerState)
    (h : serverStep st e = .ok st') (hinv : ServerInv st) : ServerInv st' := by
  cases e with
  | accept ip now =>
    simp only [serverStep, Except.ok.injEq] at h
    subst h
    exact inv_accept st ip now hinv
  | read sock recvData now =>
    exact inv_serviceRead st sock recvData now st' h hinv
  | timeout now =>
    simp only [serverStep, Except.ok.injEq] at h
    subst h
    exact inv_clients_sublist st _ (disconnectIfTimeoutAux_sublist now
      st.clients 0) hinv

theorem inv_serverRun :
    ∀ (es : List SEvent) (st st' : ServerState), serverRun st es = .ok st' →
      ServerInv st → ServerInv st' := by
  intro es
  induction es with
  | nil =>
    intro st st' h hinv
    simp only [serverRun, Except.ok.injEq] at h
    subst h
    exact hinv
  | cons e es ih =>
    intro st st' h hinv
    unfold serverRun at h
    split at h
    · exact absurd h (by simp)
    next st1 hstep =>
      exact ih st1 st' h (inv_serverStep st e st1 hstep hinv)

theorem initServer_inv (groups : List String) :
    ServerInv (initServer groups) :=
  ⟨by simp [socksNodup, initServer], by simp [initServer],
    by simp [initServer], by simp [initServer]⟩

/-- C4: address allocation.  (1) A successful `_get_free_addr` returns the
lowest address in `1..254` not currently held in the group (all smaller
candidates are taken).  (2) When no address is free, the authentication
tail disconnects the client.  (3) After any sequence of server events
(accepted connections, reads — hence authentications — and timeout
sweeps) starting from a fresh server, the authenticated clients of each
group hold pairwise-distinct one-byte addresses in `1..254`. -/
theorem address_allocation_unique :
    (∀ (clients : List Client) (g : String) (b : Bytes),
      getFreeAddr clients g = some b →
      ∃ n, b = [n] ∧ 1 ≤ n ∧ n ≤ 254 ∧
        getClientByAddr clients [n] g = none ∧
        ∀ m, 1 ≤ m → m < n → (getClientByAddr clients [m] g).isSome) ∧
    (∀ (st : ServerState) (sock : Nat) (name g : String),
      getFreeAddr st.clients g = none →
      authAssign st sock name g = .ok (serverDisconnect st sock)) ∧
    (∀ (groups : List String) (es : List SEvent) (st' : ServerState),
      serverRun (initServer groups) es = .ok st' → GoodAddrs st'.clients) := by
  refine ⟨getFreeAddr_spec, ?_, ?_⟩
  · intro st sock name g h
    unfold authAssign
    rw [h]
  · intro groups es st' h
    exact (inv_serverRun es _ st' h (initServer_inv groups)).2.2

/-- A group holding every address in `1..254`. -/
def fullClients : List Client :=
  (List.range' 1 254).map fun n => ⟨0, "", "g", [n], [], [], n, 0⟩

set_option maxRecDepth 20000 in
/-- C4 witness: the lowest free address in a group occupying address 2 is
1; a fully occupied group disconnects the next joiner; and a concrete
accept-then-authenticate run satisfies the address invariant. -/
theorem address_allocation_unique_witness :
    (getFreeAddr [clB] "g" = some [1] ∧
      ∃ n, ([1] : Bytes) = [n] ∧ 1 ≤ n ∧ n ≤ 254 ∧
        getClientByAddr [clB] [n] "g" = none ∧
        ∀ m, 1 ≤ m → m < n → (getClientByAddr [clB] [m] "g").isSome) ∧
    (getFreeAddr fullClients "g" = none ∧
      authAssign ⟨fullClients, ["g"], 300⟩ 7 "x" "g" =
        .ok (serverDisconnect ⟨fullClients, ["g"], 300⟩ 7)) ∧
    (serverRun (initServer ["g"]) [.accept 7 0] =
        .ok ⟨[freshClient 0 7 0], ["g"], 1⟩ ∧
      GoodAddrs [freshClient 0 7 0]) := by
  refine ⟨⟨by decide, ?_⟩, ⟨by decide, ?_⟩, rfl, ?_⟩
  · exact address_allocation_unique.1 [clB] "g" [1] (by decide)
  · exact address_allocation_unique.2.1 ⟨fullClients, ["g"], 300⟩ 7 "x" "g"
      (by decide)
  · exact address_allocation_unique.2.2 ["g"] [.accept 7 0]
      ⟨[freshClient 0 7 0], ["g"], 1⟩ rfl

end Nethelper
